import Mathlib

/-!
# JPEG carving scanner of `mainTryThree.c`

A shallow embedding of the sector scan in `main` (lines 66-142 of
`src/mainTryThree.c`) together with the two signature tests.

Modelling conventions.

* A byte (`uint8_t`) is a natural number; the sector buffer `buffer[512]` is a
  list of bytes.  A pointer into the buffer is the suffix of the list that
  starts at the pointed-to element.
* The input stream `disk` is an oracle: the scan receives the list of the
  results of the successive calls `fread(buffer, 1, 512, disk)`, each with the
  bytes delivered and the values `feof(disk)` and `ferror(disk)` have right
  after the call.  `clearerr` and `fseek` act on the stream only, so their
  effect is part of the next read result.
* `Disk`, `fread` and `disk_reads` spell out the stream behind the oracle: the
  bytes of the medium, the offset the stream stands at, and for each offset
  whether the read that starts there fails and after how many bytes.  After a
  read the stream stands right after the bytes delivered, also when the read
  failed (the C standard leaves the position indeterminate then);
  `fseek(disk, 512, SEEK_CUR)` is taken to succeed, the source ignores its
  result.  `scan_disk` runs the loop on the reads of a stream.
* The output side is a trace of events (`fopen` of a recovered file that
  succeeded, `fwrite`, `fclose`, and the line `Recovered JPEG file: ...`).
  A `FILE *` for a recovered file is identified with the ordinal the file
  was created with.  `fwrite` is taken to write all the bytes it is given
  (the source ignores its return value).
* `file_counter` is an `int` that only ever grows from 0; it is kept as a
  natural number, the value `file_counter - 1` that is printed is an integer.
  Creating the output file is an oracle on the ordinal; the name that
  `sprintf` builds for an ordinal is `artifact_name`, kept apart from
  `loop_body`, whose events carry the ordinal.
* `loop_body_checked` takes in the array `filename[20]` that `sprintf` writes
  to and the range of `int`: an iteration that finds the start signature while
  the name for the counter does not fit the array, or while the counter stands
  at `INT_MAX`, is undefined behaviour.  Below that it is `loop_body`.
* Progress output (floating point) is left out.
-/

namespace FileRecovery

/-! ## The source -/

/-- The constant `jpeg_header` of the source. -/
def jpeg_header : List Nat := [0xFF, 0xD8, 0xFF]

/-- The constant `jpeg_footer` of the source. -/
def jpeg_footer : List Nat := [0xFF, 0xD9]

/-- Source `is_jpeg_header`: the first three bytes at `buffer` are FF D8 FF.
A position past the end of the list reads as 0; the buffer of the source
always holds 512 bytes. -/
def is_jpeg_header (buffer : List Nat) : Bool :=
  buffer.getD 0 0 == jpeg_header.getD 0 0 &&
    buffer.getD 1 0 == jpeg_header.getD 1 0 &&
    buffer.getD 2 0 == jpeg_header.getD 2 0

/-- Source `is_jpeg_footer`: the first two bytes at `buffer` are FF D9. -/
def is_jpeg_footer (buffer : List Nat) : Bool :=
  buffer.getD 0 0 == jpeg_footer.getD 0 0 &&
    buffer.getD 1 0 == jpeg_footer.getD 1 0

/-- Result of one call `fread(buffer, 1, 512, disk)`: the bytes delivered
(`bytes_read` is their number) and the stream indicators after the call. -/
structure ReadResult where
  data : List Nat
  eof : Bool
  err : Bool
deriving DecidableEq, Repr

/-- Output actions of the scan, in program order. -/
inductive Event where
  | fopen (n : Nat)
  | fwrite (h : Nat) (bytes : List Nat)
  | fclose (h : Nat)
  | printRecovered (n : Int)
deriving DecidableEq, Repr

/-- Local variables of `main` that live across loop iterations, and the
output trace produced so far. -/
structure ScanState where
  buffer : List Nat
  file_counter : Nat
  bytes_read_total : Int
  recovered_file : Option Nat
  events : List Event
deriving DecidableEq, Repr

/-- How one pass through the loop body ends. -/
inductive StepResult where
  | next (s : ScanState)
  | brk (s : ScanState)
  | ret (code : Nat) (s : ScanState)
  | oob (s : ScanState)
deriving DecidableEq, Repr

/-- Lines 103-106 and 135-138: close the recovered file if one is open and
print its name. The variable itself is left as it is. -/
def close_previous (s : ScanState) : ScanState :=
  match s.recovered_file with
  | some h =>
    { s with events := s.events ++
        [Event.fclose h, Event.printRecovered ((s.file_counter : Int) - 1)] }
  | none => s

/-- One iteration of the `while (1)` loop of `main` (lines 73-132).
`canCreate n` tells whether `fopen` of the recovered file with ordinal `n`
succeeds. `oob` marks the read before the start of `buffer` that
`buffer + bytes_read - 2` makes when `bytes_read < 2`. -/
def loop_body (canCreate : Nat → Bool) (s : ScanState) (r : ReadResult) : StepResult :=
  let bytes_read := r.data.length
  let buffer := r.data ++ s.buffer.drop bytes_read
  let s1 : ScanState :=
    { s with buffer := buffer, bytes_read_total := s.bytes_read_total + bytes_read }
  if bytes_read != 512 && r.eof then StepResult.brk s1
  else if bytes_read != 512 && r.err then StepResult.next s1
  else if is_jpeg_header buffer then
    let s2 := close_previous s1
    let n := s2.file_counter
    let s3 : ScanState := { s2 with file_counter := n + 1 }
    if canCreate n then
      StepResult.next
        { s3 with recovered_file := some n,
                  events := s3.events ++ [Event.fopen n, Event.fwrite n (buffer.take bytes_read)] }
    else StepResult.ret 1 { s3 with recovered_file := none }
  else
    match s1.recovered_file with
    | some h =>
      let s2 : ScanState :=
        { s1 with events := s1.events ++ [Event.fwrite h (buffer.take bytes_read)] }
      if bytes_read < 2 then StepResult.oob s2
      else if is_jpeg_footer (buffer.drop (bytes_read - 2)) then
        StepResult.next
          { s2 with recovered_file := none, events := s2.events ++ [Event.fclose h] }
      else StepResult.next s2
    | none => StepResult.next s1

/-- The `while (1)` loop run on the given read results. `next s` as result
means the loop is still running, waiting for a further read. -/
def scan_loop (canCreate : Nat → Bool) : ScanState → List ReadResult → StepResult
  | s, [] => StepResult.next s
  | s, r :: rest =>
    match loop_body canCreate s r with
    | StepResult.next s1 => scan_loop canCreate s1 rest
    | other => other

/-- How the scan ends. -/
inductive Outcome where
  | exited (code : Nat) (s : ScanState)
  | running (s : ScanState)
  | undefined (s : ScanState)
deriving DecidableEq, Repr

/-- State at line 70, with `buf0` the uninitialised content of `buffer`. -/
def initial (buf0 : List Nat) : ScanState :=
  { buffer := buf0, file_counter := 0, bytes_read_total := 0,
    recovered_file := none, events := [] }

/-- Lines 66-142 of `main`: the loop, then closing any remaining file and
returning 0; a failed creation returns 1 from inside the loop. -/
def scan (canCreate : Nat → Bool) (buf0 : List Nat) (reads : List ReadResult) : Outcome :=
  match scan_loop canCreate (initial buf0) reads with
  | StepResult.brk s => Outcome.exited 0 (close_previous s)
  | StepResult.ret code s => Outcome.exited code s
  | StepResult.next s => Outcome.running s
  | StepResult.oob s => Outcome.undefined s

/-- Source `main`: argument count, `get_disk_size` result (`-1` on failure)
and whether `fopen` of the medium succeeds come before the scan. -/
def main (argc : Nat) (total_size : Int) (diskOpens : Bool) (canCreate : Nat → Bool)
    (buf0 : List Nat) (reads : List ReadResult) : Outcome :=
  if argc != 2 then Outcome.exited 1 (initial buf0)
  else if total_size == -1 then Outcome.exited 1 (initial buf0)
  else if !diskOpens then Outcome.exited 1 (initial buf0)
  else scan canCreate buf0 reads

/-- State after one iteration, whichever way the iteration ends. -/
def StepResult.state : StepResult → ScanState
  | StepResult.next s => s
  | StepResult.brk s => s
  | StepResult.ret _ s => s
  | StepResult.oob s => s

/-- State in which the scan ends or stands. -/
def Outcome.state : Outcome → ScanState
  | Outcome.exited _ s => s
  | Outcome.running s => s
  | Outcome.undefined s => s

/-! ## A medium read without faults -/

/-- Read result that delivers a whole sector. -/
def full (b : List Nat) : ReadResult :=
  { data := b, eof := false, err := false }

/-- Reads of a stream without faults holding `medium`: `k` full sectors, then
the read that hits the end and delivers what is left. -/
def fread_from : Nat → List Nat → List ReadResult
  | 0, medium => [{ data := medium.take 512, eof := true, err := false }]
  | k + 1, medium =>
    { data := medium.take 512, eof := false, err := false } :: fread_from k (medium.drop 512)

/-- All reads the scan makes on a medium that is read without faults: one
full read per complete 512-byte sector, then a short read (possibly of zero
bytes) that sets the end-of-file indicator. -/
def fread_all (medium : List Nat) : List ReadResult :=
  fread_from (medium.length / 512) medium

/-- The complete 512-byte sectors of a medium, in order. -/
def sectors (medium : List Nat) : List (List Nat) :=
  (List.range (medium.length / 512)).map fun i => (medium.drop (i * 512)).take 512

/-! ## Reading the output trace -/

/-- Ordinals of the recovered files created, in creation order. -/
def created (evs : List Event) : List Nat :=
  evs.filterMap fun e => match e with
    | Event.fopen n => some n
    | _ => none

/-- Bytes written to the recovered file with ordinal `n`, in order. -/
def content (evs : List Event) (n : Nat) : List Nat :=
  (evs.filterMap fun e => match e with
    | Event.fwrite h bytes => if h = n then some bytes else none
    | _ => none).flatten

/-- The recovered files a trace leaves behind: ordinal and content. -/
def artifacts (evs : List Event) : List (Nat × List Nat) :=
  (created evs).map fun n => (n, content evs n)

/-- State of the sink while a trace is replayed: the ordinals of all files
created so far and the file that is open now, if any. -/
structure Sink where
  opened : List Nat
  current : Option Nat
deriving DecidableEq, Repr

/-- One event replayed against the sink. The result is `none` once the trace
is out of order: an `fopen` while a file is open or of an ordinal that was
created before, or an `fwrite` or `fclose` on a file other than the one that
is open now. -/
def replay : Option Sink → Event → Option Sink
  | some k, Event.fopen n =>
    if k.current = none ∧ n ∉ k.opened then
      some { opened := k.opened ++ [n], current := some n }
    else none
  | some k, Event.fwrite h _ => if k.current = some h then some k else none
  | some k, Event.fclose h =>
    if k.current = some h then some { k with current := none } else none
  | some k, Event.printRecovered _ => some k
  | none, _ => none

/-- Replay of a whole trace from the empty sink. -/
def open_after (evs : List Event) : Option Sink :=
  evs.foldl replay (some { opened := [], current := none })

/-- The trace of a state is in order and agrees with the variables. -/
def orderly (s : ScanState) : Prop :=
  ∃ k, open_after s.events = some k ∧ k.current = s.recovered_file ∧
    k.opened = created s.events ∧ ∀ n ∈ created s.events, n < s.file_counter

/-! ## What the scan is expected to do -/

/-- The last two bytes of a block are FF D9. -/
def ends_with_footer (b : List Nat) : Bool :=
  is_jpeg_footer (b.drop (b.length - 2))

/-- A block at which a file that is open ends: it begins with FF D8 FF, or it
does not and its last two bytes are FF D9. -/
def stops (b : List Nat) : Bool :=
  is_jpeg_header b || (!is_jpeg_header b && ends_with_footer b)

/-- Indices of the blocks that begin with FF D8 FF, in increasing order. -/
def header_indices (bs : List (List Nat)) : List Nat :=
  (List.range bs.length).filter fun i => is_jpeg_header (bs.getD i [])

/-- Index of the last block of the file whose header block has index `i`:
with `j` the first index after `i` of a block that begins with FF D8 FF or
ends in FF D9, it is `j - 1` when block `j` begins with FF D8 FF and `j`
otherwise; without such a `j` it is the index of the last block. -/
def segment_end (bs : List (List Nat)) (i : Nat) : Nat :=
  match (List.range bs.length).find? (fun j => decide (i < j) && stops (bs.getD j [])) with
  | some j => if is_jpeg_header (bs.getD j []) then j - 1 else j
  | none => bs.length - 1

/-- Concatenation of the blocks with indices `i` to `e`, both included. -/
def blocks_from_to (bs : List (List Nat)) (i e : Nat) : List Nat :=
  ((bs.drop i).take (e + 1 - i)).flatten

/-- The files the scan is to produce from the blocks of a medium: one per
header index, numbered from 0 in increasing order of the index, each holding
the blocks from its header block to its end index. -/
def expected_artifacts (bs : List (List Nat)) : List (Nat × List Nat) :=
  (header_indices bs).enum.map fun p => (p.1, blocks_from_to bs p.2 (segment_end bs p.2))

/-- Number of byte offsets `k * 512` inside the medium at which the three
bytes FF D8 FF appear. -/
def aligned_signatures (medium : List Nat) : Nat :=
  ((List.range ((medium.length + 511) / 512)).filter fun k =>
    is_jpeg_header (medium.drop (k * 512))).length

/-- Number of byte offsets `k * 512` with `k * 512 + 512` not beyond the end
of the medium (starts of complete sectors) at which FF D8 FF appear. -/
def complete_sector_signatures (medium : List Nat) : Nat :=
  ((List.range (medium.length / 512)).filter fun k =>
    is_jpeg_header (medium.drop (k * 512))).length

/-- Whether the iteration on read `r` from state `s` reaches the header test
(line 101) and finds the start signature there. -/
def sees_signature (s : ScanState) (r : ReadResult) : Bool :=
  !(r.data.length != 512 && r.eof) && !(r.data.length != 512 && r.err) &&
    is_jpeg_header (r.data ++ s.buffer.drop r.data.length)

/-- Number of start signatures observed while the loop runs on the given
reads: the iterations that reach the header test with a matching buffer. -/
def signatures_seen (canCreate : Nat → Bool) : ScanState → List ReadResult → Nat
  | _, [] => 0
  | s, r :: rest =>
    (if sees_signature s r then 1 else 0) +
      match loop_body canCreate s r with
      | StepResult.next s1 => signatures_seen canCreate s1 rest
      | _ => 0

/-! ## Carving by recursion over the blocks -/

/-- State after an iteration on a whole sector when every creation succeeds. -/
def block_step (s : ScanState) (b : List Nat) : ScanState :=
  (loop_body (fun _ => true) s (full b)).state

/-- Blocks that go to a file already open, from the blocks that follow its
header block: up to and including the first non-header block ending in
FF D9, or up to but excluding the first header block, or all of them. -/
def carve_open : List (List Nat) → List (List Nat)
  | [] => []
  | b :: rest =>
    if is_jpeg_header b then []
    else if ends_with_footer b then [b]
    else b :: carve_open rest

/-- Contents of the files carved from a list of blocks, in order. -/
def carve : List (List Nat) → List (List Nat)
  | [] => []
  | b :: rest =>
    if is_jpeg_header b then (b :: carve_open rest).flatten :: carve rest
    else carve rest

/-! ## Sample data -/

/-- A 512-byte block that begins with FF D8 FF, zero padding after it. -/
def sample_header_block : List Nat := [0xFF, 0xD8, 0xFF] ++ List.replicate 509 0

/-- A 512-byte block that begins with AA AA AA, zero padding after it. -/
def sample_other_block : List Nat := [0xAA, 0xAA, 0xAA] ++ List.replicate 509 0

/-- A 512-byte block of zero padding. -/
def sample_padding_block : List Nat := List.replicate 512 0

/-- A 512-byte block of zero padding that ends in FF D9. -/
def sample_footer_block : List Nat := List.replicate 510 0 ++ [0xFF, 0xD9]

/-- A 512-byte block that begins with FF D8 FF and ends in FF D9. -/
def sample_both_block : List Nat := [0xFF, 0xD8, 0xFF] ++ List.replicate 507 0 ++ [0xFF, 0xD9]

/-- A 512-byte padding block whose last byte is FF. -/
def sample_split_first : List Nat := List.replicate 511 0 ++ [0xFF]

/-- A 512-byte padding block whose first byte is D9. -/
def sample_split_second : List Nat := [0xD9] ++ List.replicate 511 0

/-- Four-block medium: a block of other data, a header block, a padding
block, a block that ends in FF D9. -/
def sample_blocks : List (List Nat) :=
  [sample_other_block, sample_header_block, sample_padding_block, sample_footer_block]

/-- Three-block medium with one header block and no block ending in FF D9. -/
def sample_open_blocks : List (List Nat) :=
  [sample_other_block, sample_header_block, sample_padding_block]

/-- A 513-byte medium: one header block and a final short block of one byte. -/
def sample_short_medium : List Nat := sample_header_block ++ [1]

/-- A read that fails with an I/O error and delivers nothing. -/
def sample_fault_read : ReadResult :=
  { data := [], eof := false, err := true }

/-- The read that hits the end of the medium and delivers nothing. -/
def sample_eof_read : ReadResult :=
  { data := [], eof := true, err := false }

/-- State right after a first header block was carved into file 0. -/
def sample_open_state : ScanState :=
  { buffer := sample_header_block, file_counter := 1, bytes_read_total := 512,
    recovered_file := some 0,
    events := [Event.fopen 0, Event.fwrite 0 sample_header_block] }

/-- State after five blocks of other data were read and discarded. -/
def sample_idle_state : ScanState :=
  { buffer := sample_other_block, file_counter := 0, bytes_read_total := 2560,
    recovered_file := none, events := [] }

/-! ## Names of the recovered files -/

/-- What `%03d` prints for a non-negative number: its decimal digits, most
significant first, preceded by zeros up to a width of 3 characters. -/
def format_03d (n : Nat) : List Char :=
  List.replicate (3 - (Nat.toDigits 10 n).length) '0' ++ Nat.toDigits 10 n

/-- The string `sprintf(filename, "recovered_%03d.jpg", n)` puts into
`filename` (line 110), without the terminating NUL. Every character is one
byte. -/
def artifact_name (n : Nat) : String :=
  "recovered_" ++ String.mk (format_03d n) ++ ".jpg"

/-- Number a string of decimal digit characters stands for. -/
def decimal_value (cs : List Char) : Nat :=
  cs.foldl (fun a c => 10 * a + (c.toNat - 48)) 0

/-! ## Reads that keep to the contract of `fread` -/

/-- Whether the iteration on read `r` gets past the handling of short reads
(lines 84-98) to the header test: it neither leaves the loop nor skips. -/
def reaches_tests (r : ReadResult) : Bool :=
  !(r.data.length != 512 && r.eof) && !(r.data.length != 512 && r.err)

/-- A read result as `fread` gives it: at most the 512 bytes asked for, and
fewer than 512 only with the end-of-file or the error indicator set. -/
def proper_read (r : ReadResult) : Prop :=
  r.data.length ≤ 512 ∧ (r.data.length < 512 → r.eof = true ∨ r.err = true)

/-- Every write of the trace carries 512 bytes and every file created has
received a write. -/
def blockwise (evs : List Event) : Prop :=
  (∀ h bytes, Event.fwrite h bytes ∈ evs → bytes.length = 512) ∧
    ∀ n, n ∈ created evs → ∃ bytes, Event.fwrite n bytes ∈ evs

/-- Reads of a scan: a header block, a read that fails, the end of the medium. -/
def sample_reads : List ReadResult :=
  [full sample_header_block, sample_fault_read, sample_eof_read]

/-! ## The ordinal printed when a file is closed -/

/-- One event checked for the printed ordinals. The state is `some c` while
every line `Recovered JPEG file: ...` so far came right after the `fclose` of
the file whose ordinal it printed, with `c` the file closed by the event just
before, if that event was an `fclose`; it is `none` once a line printed another
ordinal or did not follow an `fclose`. -/
def report_step : Option (Option Nat) → Event → Option (Option Nat)
  | some _, Event.fclose h => some (some h)
  | some (some h), Event.printRecovered m => if m = (h : Int) then some none else none
  | some none, Event.printRecovered _ => none
  | some _, Event.fopen _ => some none
  | some _, Event.fwrite _ _ => some none
  | none, _ => none

/-- The whole trace checked for the printed ordinals. -/
def reports_checked (evs : List Event) : Option (Option Nat) :=
  evs.foldl report_step (some none)

/-- The open file is the one created last, and the printed ordinals check. -/
def reporting (s : ScanState) : Prop :=
  (∀ h, s.recovered_file = some h → h + 1 = s.file_counter) ∧
    ∃ c, reports_checked s.events = some c

/-! ## The name buffer, the `int` counter and the stream -/

/-- Size in bytes of the array `filename` (line 109). -/
def filename_size : Nat := 20

/-- Whether `sprintf` (line 110) writes past the end of `filename`: the name
for ordinal `n` and its terminating NUL take more bytes than the array has. -/
def name_overflows (n : Nat) : Bool :=
  decide (filename_size < (artifact_name n).utf8ByteSize + 1)

/-- Whether `file_counter++` (line 110) overflows the `int`: the counter
stands at `INT_MAX`. -/
def counter_overflows (n : Nat) : Bool :=
  decide (2147483647 ≤ n)

/-- One iteration of the loop with lines 109-110 taken in: when the header
test holds, the open file is closed and then `sprintf` writes the name into
`filename[20]` and the `int` counter is incremented; a name that does not fit,
or a counter at `INT_MAX`, is undefined behaviour (`oob`). Everything else is
`loop_body`. -/
def loop_body_checked (canCreate : Nat → Bool) (s : ScanState) (r : ReadResult) : StepResult :=
  if sees_signature s r && (name_overflows s.file_counter || counter_overflows s.file_counter) then
    StepResult.oob
      (close_previous
        { s with buffer := r.data ++ s.buffer.drop r.data.length,
                 bytes_read_total := s.bytes_read_total + r.data.length })
  else loop_body canCreate s r

/-- The `while (1)` loop with the name buffer and the `int` counter taken in. -/
def scan_loop_checked (canCreate : Nat → Bool) : ScanState → List ReadResult → StepResult
  | s, [] => StepResult.next s
  | s, r :: rest =>
    match loop_body_checked canCreate s r with
    | StepResult.next s1 => scan_loop_checked canCreate s1 rest
    | other => other

/-- Lines 66-142 with the name buffer and the `int` counter taken in. -/
def scan_checked (canCreate : Nat → Bool) (buf0 : List Nat) (reads : List ReadResult) :
    Outcome :=
  match scan_loop_checked canCreate (initial buf0) reads with
  | StepResult.brk s => Outcome.exited 0 (close_previous s)
  | StepResult.ret code s => Outcome.exited code s
  | StepResult.next s => Outcome.running s
  | StepResult.oob s => Outcome.undefined s

/-- The stream `disk`: the bytes of the medium, and for each byte offset
whether a read that starts there fails, and after how many delivered bytes. -/
structure Disk where
  bytes : List Nat
  fault : Nat → Option Nat

/-- Result of `fread(buffer, 1, 512, disk)` with the stream at offset `pos`.
Without a fault the read delivers up to 512 bytes and sets end-of-file when
fewer than 512 are left. A fault inside the medium delivers the first `j`
bytes, fewer than 512, and sets the error indicator. The stream then stands
right after the bytes delivered. -/
def fread (d : Disk) (pos : Nat) : ReadResult :=
  match d.fault pos with
  | some j =>
    if pos < d.bytes.length then
      { data := ((d.bytes.drop pos).take 512).take (min j 511), eof := false, err := true }
    else { data := [], eof := true, err := false }
  | none =>
    { data := (d.bytes.drop pos).take 512,
      eof := decide (((d.bytes.drop pos).take 512).length < 512), err := false }

/-- The results of the successive `fread` calls of the loop, from the stream
at offset `pos`, for at most `fuel` calls. Each call moves the stream past the
bytes delivered. A short read with end-of-file is the last one (line 88); a
short read with the error indicator is followed by `clearerr` and
`fseek(disk, 512, SEEK_CUR)`, which moves the stream 512 bytes further from
where the read left it (lines 93-94). -/
def disk_reads (d : Disk) : Nat → Nat → List ReadResult
  | 0, _ => []
  | fuel + 1, pos =>
    let r := fread d pos
    if r.data.length != 512 && r.eof then [r]
    else if r.data.length != 512 && r.err then
      r :: disk_reads d fuel (pos + r.data.length + 512)
    else r :: disk_reads d fuel (pos + r.data.length)

/-- Lines 66-142 run on a stream: the loop consumes the read results the
stream gives, one more call than the medium has sectors being enough to reach
its end. -/
def scan_disk (canCreate : Nat → Bool) (buf0 : List Nat) (d : Disk) : Outcome :=
  scan_checked canCreate buf0 (disk_reads d (d.bytes.length / 512 + 2) 0)

/-- A medium that is read without faults. -/
def clean_disk (medium : List Nat) : Disk :=
  { bytes := medium, fault := fun _ => none }

/-! ## The expected files, read off the bytes -/

/-- The block begins with the three bytes FF D8 FF. -/
def begins_with_signature (b : List Nat) : Bool :=
  b.take 3 == [0xFF, 0xD8, 0xFF]

/-- The last two bytes of the block are FF D9. -/
def ends_with_end_signature (b : List Nat) : Bool :=
  b.drop (b.length - 2) == [0xFF, 0xD9]

/-- Indices of the blocks that begin with FF D8 FF, in increasing order, read
off the bytes of the blocks. -/
def claimed_header_indices (bs : List (List Nat)) : List Nat :=
  (List.range bs.length).filter fun i => begins_with_signature (bs.getD i [])

/-- End index `e` of the file whose header block has index `i`, read off the
bytes of the blocks: with `j` the first index after `i` of a block that begins
with FF D8 FF, or does not and ends in FF D9, `e` is `j - 1` in the first case
and `j` in the second; without such a `j` it is the index of the last block. -/
def claimed_end (bs : List (List Nat)) (i : Nat) : Nat :=
  match (List.range bs.length).find? (fun j =>
      decide (i < j) &&
        (begins_with_signature (bs.getD j []) ||
          (!begins_with_signature (bs.getD j []) && ends_with_end_signature (bs.getD j [])))) with
  | some j => if begins_with_signature (bs.getD j []) then j - 1 else j
  | none => bs.length - 1

/-- The files the scan is to leave, read off the bytes of the blocks alone:
one per header index, numbered from 0 in increasing order of the index, each
the concatenation of the blocks from its header block to its end index. -/
def claimed_artifacts (bs : List (List Nat)) : List (Nat × List Nat) :=
  (claimed_header_indices bs).enum.map fun p =>
    (p.1, blocks_from_to bs p.2 (claimed_end bs p.2))

/-- Blocks header, padding, header, footer, padding. -/
def sample_two_files : List (List Nat) :=
  [sample_header_block, sample_padding_block, sample_header_block, sample_footer_block,
    sample_padding_block]

/-- A stream of eight blocks: blocks 0 to 5 hold other data, block 6 begins
with FF D8 FF, block 7 is padding; the read that starts at block 5 (offset
2560) fails after delivering `j` bytes. -/
def sample_faulty_disk (j : Nat) : Disk :=
  { bytes := (List.replicate 6 sample_other_block).flatten ++ sample_header_block ++
      sample_padding_block,
    fault := fun p => if p = 2560 then some j else none }

/-- The last three blocks read off `sample_faulty_disk`: a block of other
data at which the read fails after `j` bytes, a header block, a padding
block. -/
def sample_tail_disk (j : Nat) : Disk :=
  { bytes := sample_other_block ++ (sample_header_block ++ sample_padding_block),
    fault := fun p => if p = 0 then some j else none }

/-- State at the end of the scan of `sample_faulty_disk 100`. -/
def sample_missed_state : ScanState :=
  { buffer := sample_padding_block, file_counter := 0, bytes_read_total := 3584,
    recovered_file := none, events := [] }

/-- State at the end of the scan of `sample_faulty_disk 0`. -/
def sample_skipped_state : ScanState :=
  { buffer := sample_padding_block, file_counter := 1, bytes_read_total := 3584,
    recovered_file := some 0,
    events := [Event.fopen 0, Event.fwrite 0 sample_header_block,
      Event.fwrite 0 sample_padding_block, Event.fclose 0, Event.printRecovered 0] }

/-! # Lemmas

## Reading into the buffer -/

theorem header_append (b rest : List Nat) (h : 3 ≤ b.length) :
    is_jpeg_header (b ++ rest) = is_jpeg_header b := by
  match b, h with
  | x :: y :: z :: t, _ => simp [is_jpeg_header]

theorem footer_append (b rest : List Nat) (h : 2 ≤ b.length) :
    is_jpeg_footer (b ++ rest) = is_jpeg_footer b := by
  match b, h with
  | x :: y :: t, _ => simp [is_jpeg_footer]

theorem footer_drop_append (b rest : List Nat) (k : Nat) (h : k + 2 ≤ b.length) :
    is_jpeg_footer ((b ++ rest).drop k) = is_jpeg_footer (b.drop k) := by
  rw [List.drop_append_of_le_length (by omega)]
  exact footer_append _ _ (by simp; omega)

/-- Effect of one iteration on a read that delivers a whole sector. -/
theorem loop_body_full (canCreate : Nat → Bool) (s : ScanState) (r : ReadResult)
    (hlen : r.data.length = 512) :
    loop_body canCreate s r =
      if is_jpeg_header r.data then
        if canCreate s.file_counter then
          StepResult.next
            { buffer := r.data ++ s.buffer.drop 512,
              file_counter := s.file_counter + 1,
              bytes_read_total := s.bytes_read_total + 512,
              recovered_file := some s.file_counter,
              events := (close_previous s).events ++
                [Event.fopen s.file_counter, Event.fwrite s.file_counter r.data] }
        else
          StepResult.ret 1
            { buffer := r.data ++ s.buffer.drop 512,
              file_counter := s.file_counter + 1,
              bytes_read_total := s.bytes_read_total + 512,
              recovered_file := none,
              events := (close_previous s).events }
      else
        match s.recovered_file with
        | some h =>
          if ends_with_footer r.data then
            StepResult.next
              { s with buffer := r.data ++ s.buffer.drop 512,
                       bytes_read_total := s.bytes_read_total + 512,
                       recovered_file := none,
                       events := s.events ++ [Event.fwrite h r.data, Event.fclose h] }
          else
            StepResult.next
              { s with buffer := r.data ++ s.buffer.drop 512,
                       bytes_read_total := s.bytes_read_total + 512,
                       events := s.events ++ [Event.fwrite h r.data] }
        | none =>
          StepResult.next
            { s with buffer := r.data ++ s.buffer.drop 512,
                     bytes_read_total := s.bytes_read_total + 512 } := by
  have h1 : is_jpeg_header (r.data ++ s.buffer.drop 512) = is_jpeg_header r.data :=
    header_append _ _ (by omega)
  have h2 : is_jpeg_footer ((r.data ++ s.buffer.drop 512).drop 510) = ends_with_footer r.data := by
    rw [footer_drop_append _ _ _ (by omega)]; simp [ends_with_footer, hlen]
  have h3 : (r.data ++ s.buffer.drop 512).take 512 = r.data := by
    rw [List.take_append_of_le_length (by omega)]; exact List.take_of_length_le (by omega)
  cases hh : is_jpeg_header r.data <;> cases ho : s.recovered_file <;>
    simp [loop_body, hlen, h1, h2, h3, hh, ho, close_previous]

/-! ## The loop on whole sectors -/

theorem scan_loop_append (canCreate : Nat → Bool) (xs ys : List ReadResult) (s : ScanState) :
    scan_loop canCreate s (xs ++ ys) =
      match scan_loop canCreate s xs with
      | StepResult.next s1 => scan_loop canCreate s1 ys
      | other => other := by
  induction xs generalizing s with
  | nil => simp [scan_loop]
  | cons r rest ih =>
    simp only [List.cons_append, scan_loop]
    cases h : loop_body canCreate s r <;> simp [ih]

theorem loop_body_block (s : ScanState) (b : List Nat) (hlen : b.length = 512) :
    loop_body (fun _ => true) s (full b) = StepResult.next (block_step s b) := by
  have h := loop_body_full (fun _ => true) s (full b) hlen
  unfold block_step
  rw [h]
  cases is_jpeg_header (full b).data <;> cases s.recovered_file <;>
    cases ends_with_footer (full b).data <;> simp [StepResult.state]

theorem scan_loop_blocks (bs : List (List Nat)) (s : ScanState)
    (hlen : ∀ b ∈ bs, b.length = 512) :
    scan_loop (fun _ => true) s (bs.map full) = StepResult.next (bs.foldl block_step s) := by
  induction bs generalizing s with
  | nil => simp [scan_loop]
  | cons b rest ih =>
    simp only [List.map_cons, scan_loop, List.foldl_cons]
    rw [loop_body_block s b (hlen b (by simp))]
    exact ih _ (fun x hx => hlen x (by simp [hx]))

/-! ## Files and contents read off the trace -/

@[simp] theorem created_nil : created [] = [] := rfl
@[simp] theorem content_nil (n : Nat) : content [] n = [] := rfl

@[simp] theorem created_append (xs ys : List Event) :
    created (xs ++ ys) = created xs ++ created ys := by
  simp [created, List.filterMap_append]

@[simp] theorem content_append (xs ys : List Event) (n : Nat) :
    content (xs ++ ys) n = content xs n ++ content ys n := by
  simp [content, List.filterMap_append]

@[simp] theorem created_cons (e : Event) (xs : List Event) :
    created (e :: xs) = (match e with | Event.fopen n => [n] | _ => []) ++ created xs := by
  cases e <;> simp [created]

@[simp] theorem content_cons (e : Event) (xs : List Event) (n : Nat) :
    content (e :: xs) n =
      (match e with
        | Event.fwrite h bytes => if h = n then bytes else []
        | _ => []) ++ content xs n := by
  cases e with
  | fwrite h bytes => by_cases hn : h = n <;> simp [content, List.filterMap_cons, hn]
  | _ => simp [content, List.filterMap_cons]

theorem block_step_eq (s : ScanState) (b : List Nat) (hlen : b.length = 512) :
    block_step s b =
      if is_jpeg_header b then
        { buffer := b ++ s.buffer.drop 512,
          file_counter := s.file_counter + 1,
          bytes_read_total := s.bytes_read_total + 512,
          recovered_file := some s.file_counter,
          events := (close_previous s).events ++
            [Event.fopen s.file_counter, Event.fwrite s.file_counter b] }
      else
        match s.recovered_file with
        | some h =>
          if ends_with_footer b then
            { s with buffer := b ++ s.buffer.drop 512,
                     bytes_read_total := s.bytes_read_total + 512,
                     recovered_file := none,
                     events := s.events ++ [Event.fwrite h b, Event.fclose h] }
          else
            { s with buffer := b ++ s.buffer.drop 512,
                     bytes_read_total := s.bytes_read_total + 512,
                     events := s.events ++ [Event.fwrite h b] }
        | none =>
          { s with buffer := b ++ s.buffer.drop 512,
                   bytes_read_total := s.bytes_read_total + 512 } := by
  have h := loop_body_full (fun _ => true) s (full b) hlen
  unfold block_step
  rw [h]
  cases hh : is_jpeg_header b <;> cases ho : s.recovered_file <;>
    cases hf : ends_with_footer b <;> simp [StepResult.state, full, hh, hf]

theorem created_close_previous (s : ScanState) :
    created (close_previous s).events = created s.events := by
  unfold close_previous
  cases s.recovered_file <;> simp

theorem content_close_previous (s : ScanState) (n : Nat) :
    content (close_previous s).events n = content s.events n := by
  unfold close_previous
  cases s.recovered_file <;> simp

theorem created_run (bs : List (List Nat)) (s : ScanState)
    (hlen : ∀ b ∈ bs, b.length = 512) :
    created (bs.foldl block_step s).events =
      created s.events ++ List.range' s.file_counter (carve bs).length := by
  induction bs generalizing s with
  | nil => simp [carve]
  | cons b rest ih =>
    have hb : b.length = 512 := hlen b (by simp)
    have hr : ∀ x ∈ rest, x.length = 512 := fun x hx => hlen x (by simp [hx])
    rw [List.foldl_cons, ih _ hr, block_step_eq s b hb]
    cases hh : is_jpeg_header b
    · cases ho : s.recovered_file
      · simp [carve, hh]
      · cases hf : ends_with_footer b <;> simp [carve, hh]
    · simp [carve, hh, created_close_previous, List.range'_succ]

theorem content_run (bs : List (List Nat)) (s : ScanState) (n : Nat)
    (hlen : ∀ b ∈ bs, b.length = 512) :
    content (bs.foldl block_step s).events n =
      content s.events n ++
        (if s.recovered_file = some n then (carve_open bs).flatten else []) ++
        (if s.file_counter ≤ n then (carve bs).getD (n - s.file_counter) [] else []) := by
  induction bs generalizing s with
  | nil => simp [carve, carve_open]
  | cons b rest ih =>
    have hb : b.length = 512 := hlen b (by simp)
    have hr : ∀ x ∈ rest, x.length = 512 := fun x hx => hlen x (by simp [hx])
    rw [List.foldl_cons, ih _ hr, block_step_eq s b hb]
    cases hh : is_jpeg_header b
    · cases ho : s.recovered_file with
      | none => simp [carve, carve_open, hh]
      | some h =>
        cases hf : ends_with_footer b <;> by_cases hn : h = n <;>
          simp [carve, carve_open, hh, hf, hn]
    · simp only [if_true, carve, carve_open, hh, content_append, content_close_previous]
      rcases Nat.lt_trichotomy s.file_counter n with hlt | heq | hgt
      · have e1 : ¬ (s.file_counter = n) := by omega
        have e2 : s.file_counter + 1 ≤ n := by omega
        have e3 : s.file_counter ≤ n := by omega
        obtain ⟨k, hk⟩ : ∃ k, n - s.file_counter = k + 1 := ⟨n - s.file_counter - 1, by omega⟩
        have e4 : n - (s.file_counter + 1) = k := by omega
        simp [e1, e2, e3, hk, e4]
      · subst heq
        simp
      · have e1 : ¬ (s.file_counter = n) := by omega
        have e2 : ¬ (s.file_counter + 1 ≤ n) := by omega
        have e3 : ¬ (s.file_counter ≤ n) := by omega
        simp [e1, e2, e3]

/-! ## Reads of a medium without faults -/

theorem fread_from_eq (k : Nat) (m : List Nat) :
    fread_from k m =
      (List.range k).map (fun i => full ((m.drop (i * 512)).take 512)) ++
        [{ data := (m.drop (k * 512)).take 512, eof := true, err := false }] := by
  induction k generalizing m with
  | zero => simp [fread_from]
  | succ k ih =>
    rw [fread_from, ih, List.range_succ_eq_map]
    simp [full, List.drop_drop, Nat.add_mul, Nat.add_comm]

theorem fread_all_eq (m : List Nat) :
    fread_all m =
      (sectors m).map full ++
        [{ data := m.drop (m.length / 512 * 512), eof := true, err := false }] := by
  unfold fread_all sectors
  rw [fread_from_eq, List.map_map]
  have h : (m.drop (m.length / 512 * 512)).take 512 = m.drop (m.length / 512 * 512) := by
    apply List.take_of_length_le
    simp
    have := Nat.div_add_mod m.length 512
    have := Nat.mod_lt m.length (show 512 > 0 by decide)
    omega
  rw [h]
  rfl

theorem sectors_length (m : List Nat) : ∀ b ∈ sectors m, b.length = 512 := by
  intro b hb
  simp only [sectors, List.mem_map, List.mem_range] at hb
  obtain ⟨i, hi, rfl⟩ := hb
  simp
  have := Nat.div_mul_le_self m.length 512
  have : (i + 1) * 512 ≤ m.length / 512 * 512 := Nat.mul_le_mul_right _ hi
  omega

theorem tail_length (m : List Nat) : (m.drop (m.length / 512 * 512)).length < 512 := by
  simp
  have := Nat.div_add_mod m.length 512
  have := Nat.mod_lt m.length (show 512 > 0 by decide)
  omega

theorem sectors_short (tail : List Nat) (ht : tail.length < 512) : sectors tail = [] := by
  simp [sectors, Nat.div_eq_of_lt ht]

theorem sectors_cons (b rest : List Nat) (hb : b.length = 512) :
    sectors (b ++ rest) = b :: sectors rest := by
  have h1 : (b ++ rest).length / 512 = rest.length / 512 + 1 := by
    rw [List.length_append, hb]; omega
  have e1 : (b ++ rest).take 512 = b := by
    rw [List.take_append_of_le_length (by omega)]; exact List.take_of_length_le (by omega)
  have e2 : ∀ i : Nat, (b ++ rest).drop ((i + 1) * 512) = rest.drop (i * 512) := by
    intro i
    have h2 : (i + 1) * 512 = b.length + i * 512 := by omega
    rw [h2, List.drop_append]
  unfold sectors
  rw [h1, List.range_succ_eq_map]
  simp only [List.map_cons, List.map_map, Nat.zero_mul, List.drop_zero, e1]
  have e3 : ((fun i => List.take 512 (List.drop (i * 512) (b ++ rest))) ∘ Nat.succ) =
      fun i => List.take 512 (List.drop (i * 512) rest) := by
    funext i
    simp only [Function.comp, Nat.succ_eq_add_one, e2]
  rw [e3]

theorem sectors_flatten (bs : List (List Nat)) (tail : List Nat)
    (hlen : ∀ b ∈ bs, b.length = 512) (ht : tail.length < 512) :
    sectors (bs.flatten ++ tail) = bs := by
  induction bs with
  | nil => simpa using sectors_short tail ht
  | cons b rest ih =>
    rw [List.flatten_cons, List.append_assoc, sectors_cons _ _ (hlen b (by simp)),
      ih (fun x hx => hlen x (by simp [hx]))]

theorem flatten_length (bs : List (List Nat)) (hlen : ∀ b ∈ bs, b.length = 512) :
    bs.flatten.length = bs.length * 512 := by
  induction bs with
  | nil => simp
  | cons b rest ih =>
    rw [List.flatten_cons, List.length_append, ih (fun x hx => hlen x (by simp [hx])),
      hlen b (by simp), List.length_cons]
    omega

theorem tail_flatten (bs : List (List Nat)) (tail : List Nat)
    (hlen : ∀ b ∈ bs, b.length = 512) (ht : tail.length < 512) :
    (bs.flatten ++ tail).drop ((bs.flatten ++ tail).length / 512 * 512) = tail := by
  have h := flatten_length bs hlen
  have h1 : (bs.flatten ++ tail).length / 512 * 512 = bs.flatten.length := by
    rw [List.length_append, h]; omega
  rw [h1, List.drop_left]

/-! ## The scan of a medium without faults -/

theorem loop_body_eof (canCreate : Nat → Bool) (s : ScanState) (r : ReadResult)
    (hlen : r.data.length ≠ 512) (heof : r.eof = true) :
    loop_body canCreate s r =
      StepResult.brk
        { s with buffer := r.data ++ s.buffer.drop r.data.length,
                 bytes_read_total := s.bytes_read_total + r.data.length } := by
  simp [loop_body, hlen, heof]

theorem scan_fread_all (buf0 m : List Nat) :
    ∃ s, scan (fun _ => true) buf0 (fread_all m) = Outcome.exited 0 s ∧
      s.events = (close_previous ((sectors m).foldl block_step (initial buf0))).events ∧
      s.recovered_file = ((sectors m).foldl block_step (initial buf0)).recovered_file ∧
      s.file_counter = ((sectors m).foldl block_step (initial buf0)).file_counter := by
  have ht := tail_length m
  unfold scan
  rw [fread_all_eq, scan_loop_append, scan_loop_blocks _ _ (sectors_length m)]
  simp only [scan_loop]
  rw [loop_body_eof _ _ _ (by simp; omega) rfl]
  simp only [close_previous]
  cases h : ((sectors m).foldl block_step (initial buf0)).recovered_file <;> simp [h]

theorem enum_eq_map_range (l : List (List Nat)) :
    l.enum = (List.range l.length).map fun n => (n, l.getD n []) := by
  apply List.ext_getElem
  · simp
  · intro i h1 h2
    simp at h1
    simp [h1]

theorem artifacts_fread_all (buf0 m : List Nat) :
    ∃ s, scan (fun _ => true) buf0 (fread_all m) = Outcome.exited 0 s ∧
      artifacts s.events = (carve (sectors m)).enum := by
  obtain ⟨s, h1, h2, -, -⟩ := scan_fread_all buf0 m
  refine ⟨s, h1, ?_⟩
  have hc := created_run (sectors m) (initial buf0) (sectors_length m)
  have hn := fun n => content_run (sectors m) (initial buf0) n (sectors_length m)
  unfold artifacts
  rw [h2, created_close_previous, hc, enum_eq_map_range]
  have h0 : created (initial buf0).events = [] := rfl
  have h3 : (initial buf0).file_counter = 0 := rfl
  rw [h0, h3, List.nil_append, List.range_eq_range']
  apply List.map_congr_left
  intro n _
  rw [content_close_previous, hn n]
  simp [initial]

/-! ## Order of the output trace -/

theorem open_after_append (xs ys : List Event) :
    open_after (xs ++ ys) = ys.foldl replay (open_after xs) := by
  simp [open_after, List.foldl_append]

theorem orderly_initial (buf0 : List Nat) : orderly (initial buf0) :=
  ⟨{ opened := [], current := none }, rfl, rfl, rfl, by simp [initial]⟩

theorem orderly_step (canCreate : Nat → Bool) (s : ScanState) (r : ReadResult)
    (h : orderly s) : orderly (loop_body canCreate s r).state := by
  obtain ⟨k, hk, hc, ho, hlt⟩ := h
  have hfresh : s.file_counter ∉ k.opened := by
    intro hmem; rw [ho] at hmem; exact Nat.lt_irrefl _ (hlt _ hmem)
  unfold loop_body
  simp only []
  split
  · exact ⟨k, hk, hc, ho, hlt⟩
  split
  · exact ⟨k, hk, hc, ho, hlt⟩
  split
  · cases hrf : s.recovered_file with
    | none =>
      rw [hrf] at hc
      split
      · refine ⟨{ opened := k.opened ++ [s.file_counter], current := some s.file_counter }, ?_, ?_, ?_, ?_⟩
        · simp [StepResult.state, close_previous, hrf, open_after_append, hk, replay, hc, hfresh]
        · simp [StepResult.state, close_previous, hrf]
        · simp [StepResult.state, close_previous, hrf, ho]
        · intro n hn
          simp [StepResult.state, close_previous, hrf] at hn ⊢
          rcases hn with hn | hn
          · exact Nat.lt_succ_of_lt (hlt n hn)
          · omega
      · refine ⟨k, ?_, ?_, ?_, ?_⟩
        · simp [StepResult.state, close_previous, hrf, hk]
        · simp [StepResult.state, close_previous, hrf, hc]
        · simp [StepResult.state, close_previous, hrf, ho]
        · intro n hn
          simp [StepResult.state, close_previous, hrf] at hn ⊢
          exact Nat.lt_succ_of_lt (hlt n hn)
    | some h0 =>
      rw [hrf] at hc
      split
      · refine ⟨{ opened := k.opened ++ [s.file_counter], current := some s.file_counter }, ?_, ?_, ?_, ?_⟩
        · simp [StepResult.state, close_previous, hrf, open_after_append, hk, replay, hc, hfresh]
        · simp [StepResult.state, close_previous, hrf]
        · simp [StepResult.state, close_previous, hrf, ho]
        · intro n hn
          simp [StepResult.state, close_previous, hrf] at hn ⊢
          rcases hn with hn | hn
          · exact Nat.lt_succ_of_lt (hlt n hn)
          · omega
      · refine ⟨{ k with current := none }, ?_, ?_, ?_, ?_⟩
        · simp [StepResult.state, close_previous, hrf, open_after_append, hk, replay, hc]
        · simp [StepResult.state, close_previous, hrf]
        · simp [StepResult.state, close_previous, hrf, ho]
        · intro n hn
          simp [StepResult.state, close_previous, hrf] at hn ⊢
          exact Nat.lt_succ_of_lt (hlt n hn)
  · cases hrf : s.recovered_file with
    | none => exact ⟨k, hk, by simp [StepResult.state, hc, hrf], ho, hlt⟩
    | some h0 =>
      rw [hrf] at hc
      simp only []
      split
      · refine ⟨k, ?_, ?_, ?_, ?_⟩
        · simp [StepResult.state, open_after_append, hk, replay, hc]
        · simp [StepResult.state, hc, hrf]
        · simp [StepResult.state, ho]
        · simpa [StepResult.state] using hlt
      split
      · refine ⟨{ k with current := none }, ?_, ?_, ?_, ?_⟩
        · simp [StepResult.state, open_after_append, hk, replay, hc]
        · simp [StepResult.state]
        · simp [StepResult.state, ho]
        · simpa [StepResult.state] using hlt
      · refine ⟨k, ?_, ?_, ?_, ?_⟩
        · simp [StepResult.state, open_after_append, hk, replay, hc]
        · simp [StepResult.state, hc, hrf]
        · simp [StepResult.state, ho]
        · simpa [StepResult.state] using hlt

theorem orderly_loop (canCreate : Nat → Bool) (reads : List ReadResult) (s : ScanState)
    (h : orderly s) : orderly (scan_loop canCreate s reads).state := by
  induction reads generalizing s with
  | nil => simpa [scan_loop, StepResult.state] using h
  | cons r rest ih =>
    have hs := orderly_step canCreate s r h
    simp only [scan_loop]
    cases hb : loop_body canCreate s r with
    | next s1 =>
      rw [hb] at hs
      exact ih s1 hs
    | brk s1 => rw [hb] at hs; exact hs
    | ret c s1 => rw [hb] at hs; exact hs
    | oob s1 => rw [hb] at hs; exact hs

theorem open_after_close_previous (s : ScanState) (h : orderly s) :
    open_after (close_previous s).events =
      some { opened := created s.events, current := none } := by
  obtain ⟨k, hk, hc, ho, -⟩ := h
  unfold close_previous
  cases hrf : s.recovered_file with
  | none =>
    rw [hrf] at hc
    simp only [hk]
    cases k
    simp_all
  | some h0 =>
    rw [hrf] at hc
    simp [open_after_append, hk, replay, hc, ho]

theorem loop_body_ret (canCreate : Nat → Bool) (s s1 : ScanState) (r : ReadResult) (code : Nat)
    (h : loop_body canCreate s r = StepResult.ret code s1) :
    code = 1 ∧ s1.recovered_file = none ∧ canCreate s.file_counter = false := by
  unfold loop_body at h
  simp only [] at h
  split at h
  · cases h
  split at h
  · cases h
  split at h
  · split at h
    · cases h
    · rename_i hc
      injection h with h1 h2
      subst h2
      refine ⟨h1.symm, rfl, ?_⟩
      have : (close_previous
        { s with buffer := r.data ++ s.buffer.drop r.data.length,
                 bytes_read_total := s.bytes_read_total + r.data.length }).file_counter =
          s.file_counter := by
        unfold close_previous
        cases s.recovered_file <;> rfl
      simpa [this] using hc
  · split at h
    · split at h
      · cases h
      split at h <;> cases h
    · cases h

theorem scan_loop_ret (canCreate : Nat → Bool) (reads : List ReadResult) (s s1 : ScanState)
    (code : Nat) (h : scan_loop canCreate s reads = StepResult.ret code s1) :
    code = 1 ∧ s1.recovered_file = none := by
  induction reads generalizing s with
  | nil => cases h
  | cons r rest ih =>
    simp only [scan_loop] at h
    cases hb : loop_body canCreate s r with
    | next s2 => rw [hb] at h; exact ih s2 h
    | brk s2 => rw [hb] at h; cases h
    | ret c s2 =>
      rw [hb] at h
      injection h with h1 h2
      subst h1 h2
      exact ⟨(loop_body_ret canCreate s s2 r c hb).1, (loop_body_ret canCreate s s2 r c hb).2.1⟩
    | oob s2 => rw [hb] at h; cases h

theorem open_after_scan (canCreate : Nat → Bool) (buf0 : List Nat) (reads : List ReadResult) :
    ∃ k, open_after (scan canCreate buf0 reads).state.events = some k ∧
      k.opened = created (scan canCreate buf0 reads).state.events ∧
      ((∃ code s, scan canCreate buf0 reads = Outcome.exited code s) → k.current = none) := by
  have h := orderly_loop canCreate reads (initial buf0) (orderly_initial buf0)
  unfold scan
  cases hl : scan_loop canCreate (initial buf0) reads with
  | next s =>
    rw [hl] at h
    obtain ⟨k, hk, -, ho, -⟩ := h
    exact ⟨k, hk, ho, by simp⟩
  | brk s =>
    rw [hl] at h
    refine ⟨_, open_after_close_previous s h, ?_, ?_⟩
    · simp [Outcome.state, created_close_previous]
    · simp
  | ret c s =>
    rw [hl] at h
    obtain ⟨k, hk, hc, ho, -⟩ := h
    refine ⟨k, hk, ho, fun _ => ?_⟩
    rw [hc]
    exact (scan_loop_ret canCreate reads _ s c hl).2
  | oob s =>
    rw [hl] at h
    obtain ⟨k, hk, -, ho, -⟩ := h
    exact ⟨k, hk, ho, by simp⟩

/-! ## Ordinals -/

theorem close_previous_file_counter (s : ScanState) :
    (close_previous s).file_counter = s.file_counter := by
  unfold close_previous
  cases s.recovered_file <;> rfl

theorem step_created (s : ScanState) (r : ReadResult) :
    created (loop_body (fun _ => true) s r).state.events =
        created s.events ++ (if sees_signature s r then [s.file_counter] else []) ∧
      (loop_body (fun _ => true) s r).state.file_counter =
        s.file_counter + (if sees_signature s r then 1 else 0) := by
  unfold loop_body sees_signature
  simp only []
  split
  · rename_i h1; simp [StepResult.state, h1]
  split
  · rename_i h1 h2; simp [StepResult.state, h2]
  split
  · rename_i h1 h2 h3
    simp [StepResult.state, h3, created_close_previous, close_previous_file_counter]
    simp only [Bool.and_eq_true, bne_iff_ne, ne_eq, not_and, Bool.not_eq_true, not_not] at h1 h2
    have e : (r.data.length = 512 ∨ r.eof = false) ∧ (r.data.length = 512 ∨ r.err = false) := by
      refine ⟨?_, ?_⟩
      · by_cases hl : r.data.length = 512
        · exact Or.inl hl
        · exact Or.inr (h1 hl)
      · by_cases hl : r.data.length = 512
        · exact Or.inl hl
        · exact Or.inr (h2 hl)
    simp [e]
  · rename_i h1 h2 h3
    have e : (!(r.data.length != 512 && r.eof) && !(r.data.length != 512 && r.err) &&
        is_jpeg_header (r.data ++ List.drop r.data.length s.buffer)) = false := by
      simp [h3]
    rw [e]
    cases s.recovered_file with
    | none => simp [StepResult.state]
    | some h =>
      simp only []
      split
      · simp [StepResult.state]
      split <;> simp [StepResult.state]

theorem created_loop (reads : List ReadResult) (s : ScanState)
    (h : created s.events = List.range s.file_counter) :
    created (scan_loop (fun _ => true) s reads).state.events =
        List.range (s.file_counter + signatures_seen (fun _ => true) s reads) ∧
      (scan_loop (fun _ => true) s reads).state.file_counter =
        s.file_counter + signatures_seen (fun _ => true) s reads := by
  induction reads generalizing s with
  | nil => simpa [scan_loop, signatures_seen, StepResult.state] using h
  | cons r rest ih =>
    obtain ⟨h1, h2⟩ := step_created s r
    have h3 : created (loop_body (fun _ => true) s r).state.events =
        List.range (loop_body (fun _ => true) s r).state.file_counter := by
      rw [h1, h2, h]
      by_cases hs : sees_signature s r = true
      · simp [hs, List.range_succ]
      · simp [hs]
    simp only [scan_loop, signatures_seen]
    cases hb : loop_body (fun _ => true) s r with
    | next s1 =>
      rw [hb] at h2 h3
      simp only [StepResult.state] at h2 h3
      obtain ⟨a, b⟩ := ih s1 h3
      rw [a, b, h2, Nat.add_assoc]
      exact ⟨rfl, rfl⟩
    | brk s1 => rw [hb] at h2 h3; exact ⟨by simpa [h2] using h3, by simpa using h2⟩
    | ret c s1 => rw [hb] at h2 h3; exact ⟨by simpa [h2] using h3, by simpa using h2⟩
    | oob s1 => rw [hb] at h2 h3; exact ⟨by simpa [h2] using h3, by simpa using h2⟩

theorem sample_header_block_length : sample_header_block.length = 512 := by
  simp only [sample_header_block, List.length_append, List.length_replicate, List.length_cons,
    List.length_nil]


theorem sample_other_block_length : sample_other_block.length = 512 := by
  simp only [sample_other_block, List.length_append, List.length_replicate, List.length_cons,
    List.length_nil]

theorem sample_padding_block_length : sample_padding_block.length = 512 := by
  simp only [sample_padding_block, List.length_replicate]

theorem sample_footer_block_length : sample_footer_block.length = 512 := by
  simp only [sample_footer_block, List.length_append, List.length_replicate, List.length_cons,
    List.length_nil]

/-! ## The expected files -/

theorem find_range'_some (P : Nat → Bool) (k a j : Nat)
    (h : (List.range' a k).find? P = some j) :
    a ≤ j ∧ j < a + k ∧ P j = true ∧ ∀ i, a ≤ i → i < j → P i = false := by
  induction k generalizing a with
  | zero => simp at h
  | succ k ih =>
    rw [List.range'_succ, List.find?_cons] at h
    cases hp : P a with
    | true =>
      rw [hp] at h
      injection h with h
      subst h
      exact ⟨Nat.le_refl _, by omega, hp, fun i h1 h2 => by omega⟩
    | false =>
      rw [hp] at h
      obtain ⟨h1, h2, h3, h4⟩ := ih (a + 1) h
      refine ⟨by omega, by omega, h3, fun i hi1 hi2 => ?_⟩
      rcases Nat.eq_or_lt_of_le hi1 with e | e
      · rw [← e]; exact hp
      · exact h4 i e hi2

theorem find_range'_none (P : Nat → Bool) (k a : Nat)
    (h : (List.range' a k).find? P = none) :
    ∀ i, a ≤ i → i < a + k → P i = false := by
  intro i h1 h2
  rw [List.find?_eq_none] at h
  have := h i (List.mem_range'_1.mpr ⟨h1, h2⟩)
  simpa using this

theorem carve_open_all (rest : List (List Nat))
    (h : ∀ k, k < rest.length → stops (rest.getD k []) = false) : carve_open rest = rest := by
  induction rest with
  | nil => rfl
  | cons b t ih =>
    have h0 := h 0 (by simp)
    simp only [List.getD_cons_zero, stops, Bool.or_eq_false_iff, Bool.and_eq_false_iff] at h0
    obtain ⟨h1, h2⟩ := h0
    have h3 : ends_with_footer b = false := by
      rcases h2 with h2 | h2
      · simp [h1] at h2
      · exact h2
    have ht : ∀ k, k < t.length → stops (t.getD k []) = false := by
      intro k hk
      have := h (k + 1) (by simp; omega)
      simpa using this
    simp [carve_open, h1, h3, ih ht]

theorem carve_open_take (rest : List (List Nat)) (d : Nat) (hd : d < rest.length)
    (hs : stops (rest.getD d []) = true)
    (h : ∀ k, k < d → stops (rest.getD k []) = false) :
    carve_open rest = rest.take (if is_jpeg_header (rest.getD d []) then d else d + 1) := by
  induction rest generalizing d with
  | nil => simp at hd
  | cons b t ih =>
    cases d with
    | zero =>
      simp only [List.getD_cons_zero] at hs ⊢
      by_cases hh : is_jpeg_header b = true
      · simp [carve_open, hh]
      · have hf : ends_with_footer b = true := by simpa [stops, hh] using hs
        simp [carve_open, hh, hf]
    | succ d =>
      have h0 := h 0 (by omega)
      simp only [List.getD_cons_zero, stops, Bool.or_eq_false_iff, Bool.and_eq_false_iff] at h0
      obtain ⟨h1, h2⟩ := h0
      have h3 : ends_with_footer b = false := by
        rcases h2 with h2 | h2
        · simp [h1] at h2
        · exact h2
      have hd1 : d < t.length := by simpa using hd
      have hs1 : stops (t.getD d []) = true := by simpa using hs
      have ht : ∀ k, k < d → stops (t.getD k []) = false := by
        intro k hk
        have := h (k + 1) (by omega)
        simpa using this
      have := ih d hd1 hs1 ht
      rw [List.getD_cons_succ]
      by_cases hh : is_jpeg_header (t.getD d []) = true
      · rw [if_pos hh] at this ⊢
        simp [carve_open, h1, h3, this]
      · rw [if_neg hh] at this ⊢
        simp [carve_open, h1, h3, this]

theorem getD_drop (bs : List (List Nat)) (a k : Nat) :
    (bs.drop a).getD k [] = bs.getD (a + k) [] := by
  simp [List.getD_eq_getElem?_getD, List.getElem?_drop]

theorem drop_eq_cons (bs : List (List Nat)) (i : Nat) (hi : i < bs.length) :
    bs.drop i = bs.getD i [] :: bs.drop (i + 1) := by
  rw [List.drop_eq_getElem_cons hi]
  simp [List.getD_eq_getElem?_getD, List.getElem?_eq_getElem hi]

theorem segment_eq (bs : List (List Nat)) (i : Nat) (hi : i < bs.length) :
    (bs.drop i).take (segment_end bs i + 1 - i) = bs.getD i [] :: carve_open (bs.drop (i + 1)) := by
  rw [drop_eq_cons bs i hi]
  unfold segment_end
  rw [List.range_eq_range']
  cases hf : (List.range' 0 bs.length).find?
      (fun j => decide (i < j) && stops (bs.getD j [])) with
  | none =>
    have hn := find_range'_none _ _ _ hf
    have hall : ∀ k, k < (bs.drop (i + 1)).length →
        stops ((bs.drop (i + 1)).getD k []) = false := by
      intro k hk
      rw [getD_drop]
      simp only [List.length_drop] at hk
      have := hn (i + 1 + k) (Nat.zero_le _) (by omega)
      have hlt : i < i + 1 + k := by omega
      simpa [hlt] using this
    rw [carve_open_all _ hall]
    simp only []
    have e : bs.length - 1 + 1 - i = (bs.drop (i + 1)).length + 1 := by
      simp only [List.length_drop]; omega
    rw [e, List.take_succ_cons, List.take_length]
  | some j =>
    obtain ⟨-, h2, h3, h4⟩ := find_range'_some _ _ _ _ hf
    simp only [Bool.and_eq_true, decide_eq_true_eq] at h3
    obtain ⟨hij, hst⟩ := h3
    obtain ⟨d, rfl⟩ : ∃ d, j = i + 1 + d := ⟨j - (i + 1), by omega⟩
    have hd : d < (bs.drop (i + 1)).length := by
      simp only [List.length_drop]; omega
    have hs : stops ((bs.drop (i + 1)).getD d []) = true := by rw [getD_drop]; exact hst
    have hall : ∀ k, k < d → stops ((bs.drop (i + 1)).getD k []) = false := by
      intro k hk
      rw [getD_drop]
      have := h4 (i + 1 + k) (Nat.zero_le _) (by omega)
      have hlt : i < i + 1 + k := by omega
      simpa [hlt] using this
    rw [carve_open_take _ d hd hs hall, getD_drop]
    simp only []
    by_cases hh : is_jpeg_header (bs.getD (i + 1 + d) []) = true
    · rw [if_pos hh, if_pos hh]
      have e : i + 1 + d - 1 + 1 - i = d + 1 := by omega
      rw [e, List.take_succ_cons]
    · rw [if_neg hh, if_neg hh]
      have e : i + 1 + d + 1 - i = d + 1 + 1 := by omega
      rw [e, List.take_succ_cons]

theorem header_indices_cons (b : List Nat) (t : List (List Nat)) :
    header_indices (b :: t) =
      (if is_jpeg_header b then [0] else []) ++ (header_indices t).map (· + 1) := by
  unfold header_indices
  rw [List.length_cons, List.range_succ_eq_map, List.filter_cons, List.filter_map]
  have e : ((fun i => is_jpeg_header ((b :: t).getD i [])) ∘ Nat.succ) =
      fun i => is_jpeg_header (t.getD i []) := by
    funext i
    simp [Function.comp]
  rw [e]
  by_cases hh : is_jpeg_header b = true <;> simp [hh]

theorem header_indices_lt (bs : List (List Nat)) : ∀ i ∈ header_indices bs, i < bs.length := by
  intro i hi
  simp only [header_indices, List.mem_filter, List.mem_range] at hi
  exact hi.1

theorem map_carve_open (bs : List (List Nat)) :
    (header_indices bs).map
        (fun i => (bs.getD i [] :: carve_open (bs.drop (i + 1))).flatten) = carve bs := by
  induction bs with
  | nil => simp [header_indices, carve]
  | cons b t ih =>
    rw [header_indices_cons, List.map_append, List.map_map]
    have e : ((fun i => ((b :: t).getD i [] :: carve_open ((b :: t).drop (i + 1))).flatten) ∘
        (· + 1)) = fun i => (t.getD i [] :: carve_open (t.drop (i + 1))).flatten := by
      funext i
      simp [Function.comp]
    rw [e, ih]
    by_cases hh : is_jpeg_header b = true <;> simp [hh, carve]

theorem expected_artifacts_eq (bs : List (List Nat)) :
    expected_artifacts bs = (carve bs).enum := by
  have h : (header_indices bs).map (fun i => blocks_from_to bs i (segment_end bs i)) =
      carve bs := by
    rw [← map_carve_open bs]
    apply List.map_congr_left
    intro i hi
    unfold blocks_from_to
    rw [segment_eq bs i (header_indices_lt bs i hi)]
  unfold expected_artifacts
  rw [← h, List.enum_map]
  apply List.map_congr_left
  intro p _
  rfl

theorem replay_none (evs : List Event) : evs.foldl replay none = none := by
  induction evs with
  | nil => rfl
  | cons e t ih => simpa [List.foldl_cons, replay] using ih

theorem replay_writes (evs : List Event) (k0 k : Sink)
    (h : evs.foldl replay (some k0) = some k)
    (h0 : ∀ c, k0.current = some c → c ∈ k0.opened) :
    (∀ n bytes, Event.fwrite n bytes ∈ evs → n ∈ k.opened) ∧
      (∀ n, n ∈ k0.opened → n ∈ k.opened) := by
  induction evs generalizing k0 with
  | nil =>
    simp only [List.foldl_nil, Option.some.injEq] at h
    subst h
    simp
  | cons e t ih =>
    rw [List.foldl_cons] at h
    cases hr : replay (some k0) e with
    | none => rw [hr, replay_none] at h; cases h
    | some k1 =>
      rw [hr] at h
      cases e with
      | fopen n =>
        simp only [replay] at hr
        split at hr
        · injection hr with hr
          subst hr
          obtain ⟨a, b⟩ := ih _ h (by simp)
          refine ⟨?_, fun n hn => b n (by simp [hn])⟩
          intro n bytes hm
          simp only [List.mem_cons] at hm
          rcases hm with hm | hm
          · cases hm
          · exact a n bytes hm
        · cases hr
      | fwrite w bytes0 =>
        simp only [replay] at hr
        split at hr
        · rename_i hc
          injection hr with hr
          subst hr
          obtain ⟨a, b⟩ := ih _ h h0
          refine ⟨?_, b⟩
          intro n bytes hm
          simp only [List.mem_cons] at hm
          rcases hm with hm | hm
          · injection hm with e1 e2
            subst e1
            exact b _ (h0 _ hc)
          · exact a n bytes hm
        · cases hr
      | fclose w =>
        simp only [replay] at hr
        split at hr
        · injection hr with hr
          subst hr
          obtain ⟨a, b⟩ := ih _ h (by simp)
          refine ⟨?_, b⟩
          intro n bytes hm
          simp only [List.mem_cons] at hm
          rcases hm with hm | hm
          · cases hm
          · exact a n bytes hm
        · cases hr
      | printRecovered m =>
        simp only [replay] at hr
        injection hr with hr
        subst hr
        obtain ⟨a, b⟩ := ih _ h h0
        refine ⟨?_, b⟩
        intro n bytes hm
        simp only [List.mem_cons] at hm
        rcases hm with hm | hm
        · cases hm
        · exact a n bytes hm

theorem writes_created (canCreate : Nat → Bool) (buf0 : List Nat) (reads : List ReadResult) :
    ∀ n bytes, Event.fwrite n bytes ∈ (scan canCreate buf0 reads).state.events →
      n ∈ created (scan canCreate buf0 reads).state.events := by
  obtain ⟨k, hk, ho, -⟩ := open_after_scan canCreate buf0 reads
  have := (replay_writes _ _ k hk (by simp)).1
  rw [ho] at this
  exact this

theorem fread_all_blocks (bs : List (List Nat)) (hlen : ∀ b ∈ bs, b.length = 512) :
    fread_all bs.flatten = bs.map full ++ [{ data := [], eof := true, err := false }] := by
  have h1 := sectors_flatten bs [] hlen (by simp)
  have h2 := tail_flatten bs [] hlen (by simp)
  rw [List.append_nil] at h1 h2
  rw [fread_all_eq, h1, h2]

theorem find_range_first (P : Nat → Bool) (n j : Nat) (hj : j < n) (hp : P j = true)
    (hmin : ∀ k, k < j → P k = false) : (List.range n).find? P = some j := by
  rw [List.range_eq_range']
  cases hf : (List.range' 0 n).find? P with
  | none =>
    have := find_range'_none P n 0 hf j (Nat.zero_le _) (by omega)
    rw [hp] at this; cases this
  | some j1 =>
    obtain ⟨-, -, h3, h4⟩ := find_range'_some P n 0 j1 hf
    rcases Nat.lt_trichotomy j1 j with h | h | h
    · have := hmin j1 h; rw [h3] at this; cases this
    · rw [h]
    · have := h4 j (Nat.zero_le _) h; rw [hp] at this; cases this

theorem find_range_none (P : Nat → Bool) (n : Nat) (h : ∀ k, k < n → P k = false) :
    (List.range n).find? P = none := by
  rw [List.find?_eq_none]
  intro k hk
  simp [h k (List.mem_range.mp hk)]

theorem header_indices_single (bs : List (List Nat)) (i : Nat) (hi : i < bs.length)
    (hhdr : is_jpeg_header (bs.getD i []) = true)
    (honly : ∀ k, k < bs.length → k ≠ i → is_jpeg_header (bs.getD k []) = false) :
    header_indices bs = [i] := by
  induction bs generalizing i with
  | nil => simp at hi
  | cons b t ih =>
    rw [header_indices_cons]
    cases i with
    | zero =>
      simp only [List.getD_cons_zero] at hhdr
      have hnone : header_indices t = [] := by
        simp only [header_indices, List.filter_eq_nil_iff, List.mem_range]
        intro k hk
        have := honly (k + 1) (by simp; omega) (by omega)
        simpa using this
      simp [hhdr, hnone]
    | succ i =>
      have h0 := honly 0 (by simp) (by omega)
      simp only [List.getD_cons_zero] at h0
      have := ih i (by simpa using hi) (by simpa using hhdr)
        (fun k hk hne => by
          have := honly (k + 1) (by simp; omega) (by omega)
          simpa using this)
      simp [h0, this]

theorem blocks_from_to_length (bs : List (List Nat)) (i j : Nat)
    (hlen : ∀ b ∈ bs, b.length = 512) (hij : i ≤ j) (hj : j < bs.length) :
    (blocks_from_to bs i j).length = (j - i + 1) * 512 := by
  unfold blocks_from_to
  rw [flatten_length]
  · simp only [List.length_take, List.length_drop]
    congr 1
    omega
  · intro b hb
    exact hlen b (List.mem_of_mem_drop (List.mem_of_mem_take hb))

theorem artifacts_fst (evs : List Event) : (artifacts evs).map Prod.fst = created evs := by
  unfold artifacts
  induction created evs with
  | nil => rfl
  | cons n t ih => simpa using ih

/-! ## Counting start signatures -/

theorem header_take (l : List Nat) : is_jpeg_header (l.take 512) = is_jpeg_header l := by
  simp [is_jpeg_header, List.getD_eq_getElem?_getD, List.getElem?_take]

theorem carve_map_length (f : Nat → List Nat) (l : List Nat) :
    (carve (l.map f)).length = (l.filter fun k => is_jpeg_header (f k)).length := by
  induction l with
  | nil => rfl
  | cons a t ih =>
    by_cases h : is_jpeg_header (f a) = true
    · simp [carve, h, ih]
    · simp [carve, h, ih]

theorem carve_sectors_length (m : List Nat) :
    (carve (sectors m)).length = complete_sector_signatures m := by
  unfold sectors complete_sector_signatures
  rw [carve_map_length]
  simp only [header_take]

theorem replay_some (k0 k1 : Sink) (e : Event) (h : replay (some k0) e = some k1)
    (h0 : ∀ c, k0.current = some c → c ∈ k0.opened) :
    (∀ c, k1.current = some c → c ∈ k1.opened) ∧
      (∀ w, w ∈ k0.opened → w ∈ k1.opened ∧ (k0.current ≠ some w → k1.current ≠ some w)) ∧
      (∀ w, e = Event.fclose w → w ∈ k1.opened ∧ k1.current ≠ some w) := by
  cases e with
  | fopen n =>
    simp only [replay] at h
    split at h
    · rename_i hc
      injection h with h
      subst h
      refine ⟨by simp, fun w hw => ⟨by simp [hw], fun _ => ?_⟩, fun w hw => by cases hw⟩
      simp only [ne_eq, Option.some.injEq]
      rintro rfl
      exact hc.2 hw
    · cases h
  | fwrite w0 bytes =>
    simp only [replay] at h
    split at h
    · injection h with h
      subst h
      exact ⟨h0, fun w hw => ⟨hw, id⟩, fun w hw => by cases hw⟩
    · cases h
  | fclose w0 =>
    simp only [replay] at h
    split at h
    · rename_i hc
      injection h with h
      subst h
      refine ⟨by simp, fun w hw => ⟨hw, fun _ => by simp⟩, fun w hw => ?_⟩
      injection hw with hw
      subst hw
      exact ⟨h0 _ hc, by simp⟩
    · cases h
  | printRecovered m =>
    simp only [replay] at h
    injection h with h
    subst h
    exact ⟨h0, fun w hw => ⟨hw, id⟩, fun w hw => by cases hw⟩

theorem replay_not_current (evs : List Event) (k1 k : Sink) (w : Nat)
    (h : evs.foldl replay (some k1) = some k)
    (h0 : ∀ c, k1.current = some c → c ∈ k1.opened)
    (hw : w ∈ k1.opened) (hc : k1.current ≠ some w) : k.current ≠ some w := by
  induction evs generalizing k1 with
  | nil =>
    simp only [List.foldl_nil, Option.some.injEq] at h
    subst h
    exact hc
  | cons e t ih =>
    rw [List.foldl_cons] at h
    cases hr : replay (some k1) e with
    | none => rw [hr, replay_none] at h; cases h
    | some k2 =>
      rw [hr] at h
      obtain ⟨a, b, -⟩ := replay_some k1 k2 e hr h0
      exact ih k2 h a (b w hw).1 ((b w hw).2 hc)

theorem replay_closed (evs : List Event) (k0 k : Sink)
    (h : evs.foldl replay (some k0) = some k)
    (h0 : ∀ c, k0.current = some c → c ∈ k0.opened) :
    ∀ w, Event.fclose w ∈ evs → k.current ≠ some w := by
  induction evs generalizing k0 with
  | nil => intro w hw; cases hw
  | cons e t ih =>
    rw [List.foldl_cons] at h
    cases hr : replay (some k0) e with
    | none => rw [hr, replay_none] at h; cases h
    | some k1 =>
      rw [hr] at h
      obtain ⟨a, -, c⟩ := replay_some k0 k1 e hr h0
      intro w hw
      simp only [List.mem_cons] at hw
      rcases hw with hw | hw
      · obtain ⟨c1, c2⟩ := c w hw.symm
        exact replay_not_current t k1 k w h a c1 c2
      · exact ih k1 h a w hw

theorem open_file_not_closed (s : ScanState) (h : Nat) (ho : orderly s)
    (hopen : s.recovered_file = some h) : Event.fclose h ∉ s.events := by
  obtain ⟨k, hk, hc, -, -⟩ := ho
  intro hm
  exact replay_closed s.events _ k hk (by simp) h hm (by rw [hc, hopen])

theorem content_eq_nil (evs : List Event) (n : Nat)
    (h : ∀ bytes, Event.fwrite n bytes ∉ evs) : content evs n = [] := by
  induction evs with
  | nil => rfl
  | cons e t ih =>
    rw [content_cons, ih (fun bytes hm => h bytes (List.mem_cons_of_mem _ hm))]
    cases e with
    | fwrite w bytes =>
      by_cases hw : w = n
      · subst hw
        exact absurd (List.mem_cons_self _ _) (h bytes)
      · simp [hw]
    | _ => rfl

theorem content_fresh (s : ScanState) (h : orderly s) : content s.events s.file_counter = [] := by
  obtain ⟨k, hk, -, ho, hlt⟩ := h
  apply content_eq_nil
  intro bytes hm
  have := (replay_writes s.events _ k hk (by simp)).1 _ bytes hm
  rw [ho] at this
  exact Nat.lt_irrefl _ (hlt _ this)

theorem footer_of_last_byte (b : List Nat) (hlen : b.length = 512)
    (hlast : b.getD 511 0 = 0xFF) : ends_with_footer b = false := by
  have h : (b.drop 510).getD 1 0 = 0xFF := by
    rw [List.getD_eq_getElem?_getD, List.getElem?_drop, ← List.getD_eq_getElem?_getD]
    exact hlast
  have e : ((255 : Nat) == jpeg_footer.getD 1 0) = false := by decide
  simp only [ends_with_footer, is_jpeg_footer, hlen, h, e, Bool.and_false]

theorem header_of_first_byte (b : List Nat) (hfirst : b.getD 0 0 = 0xD9) :
    is_jpeg_header b = false := by
  have e : ((217 : Nat) == jpeg_header.getD 0 0) = false := by decide
  simp only [is_jpeg_header, hfirst, e, Bool.false_and]

/-! ## Failed creation -/

theorem loop_body_sees (canCreate : Nat → Bool) (s : ScanState) (r : ReadResult)
    (h : sees_signature s r = true) :
    loop_body canCreate s r =
      if canCreate s.file_counter then
        StepResult.next
          { buffer := r.data ++ s.buffer.drop r.data.length,
            file_counter := s.file_counter + 1,
            bytes_read_total := s.bytes_read_total + r.data.length,
            recovered_file := some s.file_counter,
            events := (close_previous s).events ++
              [Event.fopen s.file_counter,
                Event.fwrite s.file_counter
                  ((r.data ++ s.buffer.drop r.data.length).take r.data.length)] }
      else
        StepResult.ret 1
          { buffer := r.data ++ s.buffer.drop r.data.length,
            file_counter := s.file_counter + 1,
            bytes_read_total := s.bytes_read_total + r.data.length,
            recovered_file := none,
            events := (close_previous s).events } := by
  unfold sees_signature at h
  simp only [Bool.and_eq_true, Bool.not_eq_true'] at h
  obtain ⟨⟨h1, h2⟩, h3⟩ := h
  unfold loop_body
  simp only [h1, h2, h3, Bool.false_eq_true, if_false, if_true]
  cases hc : canCreate s.file_counter <;> cases ho : s.recovered_file <;>
    simp [close_previous, hc, ho]

theorem loop_body_not_sees (canCreate : Nat → Bool) (s : ScanState) (r : ReadResult)
    (h : sees_signature s r = false) :
    created (loop_body canCreate s r).state.events = created s.events ∧
      (loop_body canCreate s r).state.file_counter = s.file_counter ∧
      ∀ code s1, loop_body canCreate s r ≠ StepResult.ret code s1 := by
  unfold sees_signature at h
  unfold loop_body
  simp only []
  split
  · simp [StepResult.state]
  split
  · simp [StepResult.state]
  split
  · rename_i h1 h2 h3
    simp [h1, h2, h3] at h
  · cases s.recovered_file with
    | none => simp [StepResult.state]
    | some h0 =>
      simp only []
      split
      · simp [StepResult.state]
      split <;> simp [StepResult.state]

theorem created_loop_next (canCreate : Nat → Bool) (reads : List ReadResult) (s s1 : ScanState)
    (h : scan_loop canCreate s reads = StepResult.next s1)
    (hc : created s.events = List.range s.file_counter) :
    created s1.events = List.range s1.file_counter ∧
      s1.file_counter = s.file_counter + signatures_seen canCreate s reads := by
  induction reads generalizing s with
  | nil =>
    simp only [scan_loop, StepResult.next.injEq] at h
    subst h
    exact ⟨hc, by simp [signatures_seen]⟩
  | cons r rest ih =>
    simp only [scan_loop] at h
    simp only [signatures_seen]
    cases hb : loop_body canCreate s r with
    | next s2 =>
      rw [hb] at h
      simp only [] at h ⊢
      have hs2 : created s2.events = List.range s2.file_counter ∧
          s2.file_counter = s.file_counter + (if sees_signature s r then 1 else 0) := by
        cases hsee : sees_signature s r with
        | true =>
          have hbody := loop_body_sees canCreate s r hsee
          rw [hb] at hbody
          cases hcc : canCreate s.file_counter with
          | false => rw [hcc] at hbody; simp at hbody
          | true =>
            rw [hcc] at hbody
            simp only [if_true, StepResult.next.injEq] at hbody
            subst hbody
            simp [created_close_previous, hc, List.range_succ]
        | false =>
          obtain ⟨a, b, -⟩ := loop_body_not_sees canCreate s r hsee
          rw [hb] at a b
          simp only [StepResult.state] at a b
          rw [a, b, hc]
          simp
      obtain ⟨a, b⟩ := ih s2 h hs2.1
      exact ⟨a, by rw [b, hs2.2, Nat.add_assoc]⟩
    | brk s2 => rw [hb] at h; cases h
    | ret c s2 => rw [hb] at h; cases h
    | oob s2 => rw [hb] at h; cases h

theorem scan_loop_ret_split (canCreate : Nat → Bool) (reads : List ReadResult)
    (s0 s1 : ScanState) (code : Nat)
    (h : scan_loop canCreate s0 reads = StepResult.ret code s1) :
    ∃ pre r rest s, reads = pre ++ r :: rest ∧
      scan_loop canCreate s0 pre = StepResult.next s ∧
      sees_signature s r = true ∧ canCreate s.file_counter = false ∧
      loop_body canCreate s r = StepResult.ret code s1 ∧ code = 1 := by
  induction reads generalizing s0 with
  | nil => cases h
  | cons r rest ih =>
    simp only [scan_loop] at h
    cases hb : loop_body canCreate s0 r with
    | next s2 =>
      rw [hb] at h
      obtain ⟨pre, r1, rest1, s, e1, e2, e3, e4, e5, e6⟩ := ih s2 h
      refine ⟨r :: pre, r1, rest1, s, by rw [e1]; rfl, ?_, e3, e4, e5, e6⟩
      simp only [scan_loop, hb]
      exact e2
    | brk s2 => rw [hb] at h; cases h
    | ret c s2 =>
      rw [hb] at h
      injection h with h1 h2
      subst h1 h2
      cases hsee : sees_signature s0 r with
      | false => exact absurd hb ((loop_body_not_sees canCreate s0 r hsee).2.2 c s2)
      | true =>
        have hbody := loop_body_sees canCreate s0 r hsee
        rw [hb] at hbody
        cases hcc : canCreate s0.file_counter with
        | true => rw [hcc] at hbody; simp at hbody
        | false =>
          rw [hcc] at hbody
          simp only [Bool.false_eq_true, if_false, StepResult.ret.injEq] at hbody
          exact ⟨[], r, rest, s0, rfl, rfl, hsee, hcc, hb, hbody.1⟩
    | oob s2 => rw [hb] at h; cases h

/-! ## Names of the recovered files -/

theorem toDigitsCore_small (f n : Nat) (acc : List Char) (h : n < 10) :
    Nat.toDigitsCore 10 (f + 1) n acc = Nat.digitChar n :: acc := by
  have h1 : n / 10 = 0 := Nat.div_eq_of_lt h
  have h2 : n % 10 = n := Nat.mod_eq_of_lt h
  simp [Nat.toDigitsCore, h1, h2]

theorem toDigitsCore_big (f n : Nat) (acc : List Char) (h : 10 ≤ n) :
    Nat.toDigitsCore 10 (f + 1) n acc =
      Nat.toDigitsCore 10 f (n / 10) (Nat.digitChar (n % 10) :: acc) := by
  have h1 : n / 10 ≠ 0 := by
    have := Nat.div_le_div_right (c := 10) h
    omega
  simp [Nat.toDigitsCore, h1]

theorem toDigitsCore_eq (f : Nat) : ∀ (n : Nat) (acc : List Char), n ≠ 0 → n < 10 ^ (f + 1) →
    Nat.toDigitsCore 10 (f + 1) n acc =
      (Nat.digits 10 n).reverse.map Nat.digitChar ++ acc := by
  induction f with
  | zero =>
    intro n acc hn hlt
    have h : n < 10 := by simpa using hlt
    rw [toDigitsCore_small 0 n acc h, Nat.digits_of_lt 10 n hn h]
    rfl
  | succ f ih =>
    intro n acc hn hlt
    by_cases h : n < 10
    · rw [toDigitsCore_small _ n acc h, Nat.digits_of_lt 10 n hn h]
      rfl
    · have h10 : 10 ≤ n := Nat.le_of_not_lt h
      have hd : n / 10 ≠ 0 := by
        have := Nat.div_le_div_right (c := 10) h10
        omega
      have hlt1 : n / 10 < 10 ^ (f + 1) := by
        rw [Nat.div_lt_iff_lt_mul (by decide)]
        rw [Nat.pow_succ] at hlt
        exact hlt
      rw [toDigitsCore_big _ n acc h10, ih (n / 10) _ hd hlt1,
        Nat.digits_def' (by decide : 1 < 10) (Nat.pos_of_ne_zero hn)]
      simp

theorem toDigits_eq (n : Nat) (hn : n ≠ 0) :
    Nat.toDigits 10 n = (Nat.digits 10 n).reverse.map Nat.digitChar := by
  unfold Nat.toDigits
  rw [toDigitsCore_eq n n [] hn
    (Nat.lt_trans (Nat.lt_succ_self n) (Nat.lt_pow_self (by decide : 1 < 10) (n + 1))),
    List.append_nil]

theorem digitChar_value : ∀ d, d < 10 → (Nat.digitChar d).toNat - 48 = d := by decide

theorem digitChar_ascii : ∀ d, d < 10 → (Nat.digitChar d).toNat < 128 := by decide

theorem decimal_value_zeros (k : Nat) (cs : List Char) :
    decimal_value (List.replicate k '0' ++ cs) = decimal_value cs := by
  unfold decimal_value
  rw [List.foldl_append]
  have h : (List.replicate k '0').foldl (fun a c => 10 * a + (c.toNat - 48)) 0 = 0 := by
    induction k with
    | zero => rfl
    | succ k ih => rw [List.replicate_succ, List.foldl_cons]; exact ih
  rw [h]

theorem decimal_value_digits (l : List Nat) (hl : ∀ d ∈ l, d < 10) :
    decimal_value (l.reverse.map Nat.digitChar) = Nat.ofDigits 10 l := by
  unfold decimal_value
  induction l with
  | nil => rfl
  | cons d t ih =>
    rw [List.reverse_cons, List.map_append, List.foldl_append,
      ih (fun x hx => hl x (List.mem_cons_of_mem _ hx))]
    simp only [List.map_cons, List.map_nil, List.foldl_cons, List.foldl_nil,
      digitChar_value d (hl d (List.mem_cons_self _ _)), Nat.ofDigits_cons]
    omega

theorem decimal_value_format (n : Nat) : decimal_value (format_03d n) = n := by
  unfold format_03d
  rw [decimal_value_zeros]
  by_cases hn : n = 0
  · subst hn; decide
  · rw [toDigits_eq n hn,
      decimal_value_digits _ (fun d hd => Nat.digits_lt_base (by decide) hd),
      Nat.ofDigits_digits]

theorem artifact_name_injective : Function.Injective artifact_name := by
  intro n m h
  unfold artifact_name at h
  have h1 := congrArg String.data h
  simp only [String.data_append] at h1
  have h2 := List.append_cancel_left (List.append_cancel_right h1)
  have h3 := congrArg decimal_value h2
  rwa [decimal_value_format, decimal_value_format] at h3

theorem digits_length_le_iff (n k : Nat) (hn : n ≠ 0) :
    (Nat.digits 10 n).length ≤ k ↔ n < 10 ^ k := by
  constructor
  · intro h
    exact Nat.lt_of_lt_of_le (Nat.lt_base_pow_length_digits (by decide))
      (Nat.pow_le_pow_right (by decide) h)
  · intro h
    by_contra hc
    have h1 : k + 1 ≤ (Nat.digits 10 n).length := by omega
    have h2 : 10 ^ (k + 1) ≤ 10 ^ (Nat.digits 10 n).length :=
      Nat.pow_le_pow_right (by decide) h1
    have h3 := Nat.base_pow_length_digits_le 10 n (by decide) hn
    rw [Nat.pow_succ] at h2
    omega

theorem toDigits_length_le_iff (n k : Nat) (hk : 1 ≤ k) :
    (Nat.toDigits 10 n).length ≤ k ↔ n < 10 ^ k := by
  by_cases hn : n = 0
  · subst hn
    have h1 : (Nat.toDigits 10 0).length = 1 := by decide
    have h2 : 0 < 10 ^ k := Nat.pow_pos (by decide)
    rw [h1]
    exact ⟨fun _ => h2, fun _ => hk⟩
  · rw [toDigits_eq n hn, List.length_map, List.length_reverse]
    exact digits_length_le_iff n k hn

theorem artifact_name_length (n : Nat) :
    (artifact_name n).length = 14 + max 3 (Nat.toDigits 10 n).length := by
  unfold artifact_name format_03d
  simp only [String.length_append, String.length_mk, List.length_append, List.length_replicate]
  have h1 : "recovered_".length = 10 := by decide
  have h2 : ".jpg".length = 4 := by decide
  rw [h1, h2]
  omega

theorem format_three_digits (n : Nat) (h : n ≤ 999) :
    format_03d n =
      [Nat.digitChar (n / 100), Nat.digitChar (n / 10 % 10), Nat.digitChar (n % 10)] := by
  unfold format_03d Nat.toDigits
  by_cases h1 : n < 10
  · have e1 : n / 100 = 0 := by omega
    have e2 : n / 10 % 10 = 0 := by omega
    have e3 : n % 10 = n := by omega
    rw [toDigitsCore_small n n [] h1, e1, e2, e3]
    rfl
  · obtain ⟨f, rfl⟩ : ∃ f, n = f + 1 := ⟨n - 1, by omega⟩
    rw [toDigitsCore_big (f + 1) (f + 1) [] (by omega)]
    by_cases h2 : f + 1 < 100
    · have e1 : (f + 1) / 100 = 0 := by omega
      have e2 : (f + 1) / 10 % 10 = (f + 1) / 10 := by omega
      rw [toDigitsCore_small f ((f + 1) / 10) _ (by omega), e1, e2]
      rfl
    · obtain ⟨g, rfl⟩ : ∃ g, f = g + 1 := ⟨f - 1, by omega⟩
      have e1 : (g + 1 + 1) / 10 / 10 = (g + 1 + 1) / 100 := by omega
      rw [toDigitsCore_big (g + 1) ((g + 1 + 1) / 10) _ (by omega),
        toDigitsCore_small g _ _ (by omega), e1]
      rfl

theorem replay_step_nodup (k0 k1 : Sink) (e : Event) (h : replay (some k0) e = some k1)
    (h0 : k0.opened.Nodup) : k1.opened.Nodup := by
  cases e with
  | fopen n =>
    simp only [replay] at h
    split at h
    · rename_i hc
      injection h with h
      subst h
      exact List.Nodup.append h0 (List.nodup_singleton n) (by simpa using hc.2)
    · cases h
  | fwrite w bytes =>
    simp only [replay] at h
    split at h
    · injection h with h; subst h; exact h0
    · cases h
  | fclose w =>
    simp only [replay] at h
    split at h
    · injection h with h; subst h; exact h0
    · cases h
  | printRecovered m =>
    simp only [replay] at h
    injection h with h; subst h; exact h0

theorem replay_nodup (evs : List Event) (k0 k : Sink)
    (h : evs.foldl replay (some k0) = some k) (h0 : k0.opened.Nodup) : k.opened.Nodup := by
  induction evs generalizing k0 with
  | nil =>
    simp only [List.foldl_nil, Option.some.injEq] at h
    subst h
    exact h0
  | cons e t ih =>
    rw [List.foldl_cons] at h
    cases hr : replay (some k0) e with
    | none => rw [hr, replay_none] at h; cases h
    | some k1 =>
      rw [hr] at h
      exact ih k1 h (replay_step_nodup k0 k1 e hr h0)

theorem created_nodup (canCreate : Nat → Bool) (buf0 : List Nat) (reads : List ReadResult) :
    (created (scan canCreate buf0 reads).state.events).Nodup := by
  obtain ⟨k, hk, ho, -⟩ := open_after_scan canCreate buf0 reads
  rw [← ho]
  exact replay_nodup _ _ k hk List.nodup_nil

theorem utf8Size_ascii (c : Char) (h : c.toNat < 128) : c.utf8Size = 1 := by
  unfold Char.utf8Size
  have h1 : c.val ≤ UInt32.ofNatCore 127 (by decide) := by
    show c.val.toNat ≤ 127
    have : c.val.toNat = c.toNat := rfl
    omega
  simp only []
  split
  · rfl
  · rename_i hneg
    exact absurd h1 hneg

theorem utf8ByteSize_ascii (cs : List Char) (h : ∀ c ∈ cs, c.toNat < 128) :
    (String.mk cs).utf8ByteSize = cs.length := by
  unfold String.utf8ByteSize
  induction cs with
  | nil => rfl
  | cons c t ih =>
    simp only [String.utf8ByteSize.go, List.length_cons]
    rw [utf8Size_ascii c (h c (List.mem_cons_self _ _))]
    have := ih (fun x hx => h x (List.mem_cons_of_mem _ hx))
    simp only [] at this
    rw [this]

theorem format_ascii (n : Nat) : ∀ c ∈ format_03d n, c.toNat < 128 := by
  intro c hc
  unfold format_03d at hc
  rw [List.mem_append] at hc
  rcases hc with hc | hc
  · rw [List.eq_of_mem_replicate hc]
    decide
  · by_cases hn : n = 0
    · subst hn
      have : c = '0' := by simpa [Nat.toDigits, Nat.toDigitsCore] using hc
      rw [this]
      decide
    · rw [toDigits_eq n hn, List.mem_map] at hc
      obtain ⟨d, hd, rfl⟩ := hc
      rw [List.mem_reverse] at hd
      exact digitChar_ascii d (Nat.digits_lt_base (by decide) hd)

theorem artifact_name_ascii (n : Nat) : ∀ c ∈ (artifact_name n).data, c.toNat < 128 := by
  intro c hc
  unfold artifact_name at hc
  simp only [String.data_append, List.mem_append] at hc
  rcases hc with (hc | hc) | hc
  · revert c
    decide
  · exact format_ascii n c hc
  · revert c
    decide

theorem artifact_name_bytes (n : Nat) :
    (artifact_name n).utf8ByteSize = 14 + max 3 (Nat.toDigits 10 n).length := by
  rw [← artifact_name_length]
  have := utf8ByteSize_ascii (artifact_name n).data (artifact_name_ascii n)
  exact this

/-! ## Reads that keep to the contract of `fread` -/

theorem close_previous_buffer (s : ScanState) : (close_previous s).buffer = s.buffer := by
  unfold close_previous
  cases s.recovered_file <;> rfl

theorem loop_body_buffer (canCreate : Nat → Bool) (s : ScanState) (r : ReadResult) :
    (loop_body canCreate s r).state.buffer = r.data ++ s.buffer.drop r.data.length := by
  unfold loop_body
  simp only []
  split
  · rfl
  split
  · rfl
  split
  · split
    · simp [StepResult.state, close_previous_buffer]
    · simp [StepResult.state, close_previous_buffer]
  · cases s.recovered_file with
    | none => rfl
    | some h =>
      simp only []
      split
      · rfl
      split <;> rfl

theorem proper_reaches (r : ReadResult) (hp : proper_read r) (hr : reaches_tests r = true) :
    r.data.length = 512 := by
  by_contra hne
  have hlt : r.data.length < 512 := Nat.lt_of_le_of_ne hp.1 hne
  unfold reaches_tests at hr
  rcases hp.2 hlt with h | h <;> simp [hne, h] at hr

theorem loop_body_no_oob (canCreate : Nat → Bool) (s : ScanState) (r : ReadResult)
    (hp : proper_read r) : ∀ s1, loop_body canCreate s r ≠ StepResult.oob s1 := by
  intro s1
  by_cases hlen : r.data.length = 512
  · rw [loop_body_full canCreate s r hlen]
    cases is_jpeg_header r.data <;> cases canCreate s.file_counter <;>
      cases s.recovered_file <;> cases ends_with_footer r.data <;> simp
  · have hlt : r.data.length < 512 := Nat.lt_of_le_of_ne hp.1 hlen
    rcases hp.2 hlt with h | h
    · rw [loop_body_eof canCreate s r hlen h]
      simp
    · cases he : r.eof
      · simp [loop_body, hlen, h, he]
      · rw [loop_body_eof canCreate s r hlen he]
        simp

theorem scan_loop_no_oob (canCreate : Nat → Bool) (reads : List ReadResult) (s : ScanState)
    (hp : ∀ r ∈ reads, proper_read r) : ∀ s1, scan_loop canCreate s reads ≠ StepResult.oob s1 := by
  induction reads generalizing s with
  | nil => intro s1; simp [scan_loop]
  | cons r rest ih =>
    intro s1
    simp only [scan_loop]
    cases hb : loop_body canCreate s r with
    | next s2 => exact ih s2 (fun x hx => hp x (List.mem_cons_of_mem _ hx)) s1
    | brk s2 => simp
    | ret c s2 => simp
    | oob s2 => exact absurd hb (loop_body_no_oob canCreate s r (hp r (List.mem_cons_self _ _)) s2)

theorem scan_loop_buffer (canCreate : Nat → Bool) (reads : List ReadResult) (s : ScanState)
    (hb : s.buffer.length = 512) (hp : ∀ r ∈ reads, r.data.length ≤ 512) :
    (scan_loop canCreate s reads).state.buffer.length = 512 := by
  induction reads generalizing s with
  | nil => simpa [scan_loop, StepResult.state] using hb
  | cons r rest ih =>
    have h1 := loop_body_buffer canCreate s r
    have h2 : (loop_body canCreate s r).state.buffer.length = 512 := by
      rw [h1, List.length_append, List.length_drop]
      have := hp r (List.mem_cons_self _ _)
      omega
    simp only [scan_loop]
    cases hbody : loop_body canCreate s r with
    | next s2 =>
      rw [hbody] at h2
      exact ih s2 h2 (fun x hx => hp x (List.mem_cons_of_mem _ hx))
    | brk s2 => rw [hbody] at h2; exact h2
    | ret c s2 => rw [hbody] at h2; exact h2
    | oob s2 => rw [hbody] at h2; exact h2

/-! ## Sizes of the recovered files -/

theorem blockwise_nil : blockwise [] := by
  constructor
  · intro h bytes hm; cases hm
  · intro n hn; cases hn

theorem blockwise_append (xs ys : List Event) (hx : blockwise xs)
    (h1 : ∀ h bytes, Event.fwrite h bytes ∈ ys → bytes.length = 512)
    (h2 : ∀ n, n ∈ created ys → ∃ bytes, Event.fwrite n bytes ∈ ys) :
    blockwise (xs ++ ys) := by
  constructor
  · intro h bytes hm
    rcases List.mem_append.mp hm with hm | hm
    · exact hx.1 h bytes hm
    · exact h1 h bytes hm
  · intro n hn
    rw [created_append] at hn
    rcases List.mem_append.mp hn with hn | hn
    · obtain ⟨b, hb⟩ := hx.2 n hn
      exact ⟨b, List.mem_append_left _ hb⟩
    · obtain ⟨b, hb⟩ := h2 n hn
      exact ⟨b, List.mem_append_right _ hb⟩

theorem blockwise_close_previous (s : ScanState) (h : blockwise s.events) :
    blockwise (close_previous s).events := by
  unfold close_previous
  cases s.recovered_file with
  | none => exact h
  | some h0 =>
    apply blockwise_append _ _ h
    · intro w bytes hm; simp at hm
    · intro n hn; simp at hn

theorem blockwise_step (canCreate : Nat → Bool) (s : ScanState) (r : ReadResult)
    (hp : proper_read r) (h : blockwise s.events) :
    blockwise (loop_body canCreate s r).state.events := by
  by_cases hlen : r.data.length = 512
  · rw [loop_body_full canCreate s r hlen]
    cases hh : is_jpeg_header r.data
    · cases ho : s.recovered_file with
      | none => simpa [StepResult.state] using h
      | some h0 =>
        cases hf : ends_with_footer r.data
        · simp only [Bool.false_eq_true, if_false, StepResult.state]
          apply blockwise_append _ _ h
          · intro w bytes hm
            simp only [List.mem_singleton, Event.fwrite.injEq] at hm
            rw [hm.2]; exact hlen
          · intro n hn; simp at hn
        · simp only [if_true, Bool.false_eq_true, if_false, StepResult.state]
          apply blockwise_append _ _ h
          · intro w bytes hm
            simp only [List.mem_cons, Event.fwrite.injEq, List.mem_singleton,
              List.not_mem_nil, or_false] at hm
            rcases hm with hm | hm
            · rw [hm.2]; exact hlen
            · cases hm
          · intro n hn; simp at hn
    · cases hc : canCreate s.file_counter
      · simp only [if_true, Bool.false_eq_true, if_false, StepResult.state]
        exact blockwise_close_previous s h
      · simp only [if_true, StepResult.state]
        apply blockwise_append _ _ (blockwise_close_previous s h)
        · intro w bytes hm
          simp only [List.mem_cons, Event.fwrite.injEq, List.mem_singleton,
            List.not_mem_nil, or_false] at hm
          rcases hm with hm | hm
          · cases hm
          · rw [hm.2]; exact hlen
        · intro n hn
          simp only [created_cons, created_nil, List.append_nil, List.nil_append,
            List.mem_singleton] at hn
          subst hn
          exact ⟨r.data, by simp⟩
  · have hlt : r.data.length < 512 := Nat.lt_of_le_of_ne hp.1 hlen
    cases he : r.eof
    · have herr : r.err = true := by
        rcases hp.2 hlt with h1 | h1
        · rw [he] at h1; cases h1
        · exact h1
      have : loop_body canCreate s r = StepResult.next
          { s with buffer := r.data ++ s.buffer.drop r.data.length,
                   bytes_read_total := s.bytes_read_total + r.data.length } := by
        simp [loop_body, hlen, he, herr]
      rw [this]
      exact h
    · rw [loop_body_eof canCreate s r hlen he]
      exact h

theorem blockwise_loop (canCreate : Nat → Bool) (reads : List ReadResult) (s : ScanState)
    (hp : ∀ r ∈ reads, proper_read r) (h : blockwise s.events) :
    blockwise (scan_loop canCreate s reads).state.events := by
  induction reads generalizing s with
  | nil => simpa [scan_loop, StepResult.state] using h
  | cons r rest ih =>
    have h1 := blockwise_step canCreate s r (hp r (List.mem_cons_self _ _)) h
    simp only [scan_loop]
    cases hb : loop_body canCreate s r with
    | next s2 =>
      rw [hb] at h1
      exact ih s2 (fun x hx => hp x (List.mem_cons_of_mem _ hx)) h1
    | brk s2 => rw [hb] at h1; exact h1
    | ret c s2 => rw [hb] at h1; exact h1
    | oob s2 => rw [hb] at h1; exact h1

theorem blockwise_scan (canCreate : Nat → Bool) (buf0 : List Nat) (reads : List ReadResult)
    (hp : ∀ r ∈ reads, proper_read r) :
    blockwise (scan canCreate buf0 reads).state.events := by
  have h := blockwise_loop canCreate reads (initial buf0) hp blockwise_nil
  unfold scan
  cases hl : scan_loop canCreate (initial buf0) reads with
  | next s => rw [hl] at h; exact h
  | brk s => rw [hl] at h; exact blockwise_close_previous s h
  | ret c s => rw [hl] at h; exact h
  | oob s => rw [hl] at h; exact h

theorem content_length_mod (evs : List Event) (n : Nat)
    (h : ∀ w bytes, Event.fwrite w bytes ∈ evs → bytes.length = 512) :
    (content evs n).length % 512 = 0 := by
  induction evs with
  | nil => rfl
  | cons e t ih =>
    have ht := ih (fun w bytes hm => h w bytes (List.mem_cons_of_mem _ hm))
    rw [content_cons, List.length_append]
    cases e with
    | fwrite w bytes =>
      have hb := h w bytes (List.mem_cons_self _ _)
      by_cases hw : w = n
      · simp only [hw, if_true, hb]
        omega
      · simp only [hw, if_false, List.length_nil]
        omega
    | fopen m => simpa using ht
    | fclose m => simpa using ht
    | printRecovered m => simpa using ht

theorem content_length_pos (evs : List Event) (n : Nat)
    (h : ∀ w bytes, Event.fwrite w bytes ∈ evs → bytes.length = 512)
    (hw : ∃ bytes, Event.fwrite n bytes ∈ evs) : 512 ≤ (content evs n).length := by
  induction evs with
  | nil => obtain ⟨b, hb⟩ := hw; cases hb
  | cons e t ih =>
    rw [content_cons, List.length_append]
    obtain ⟨b, hb⟩ := hw
    rcases List.mem_cons.mp hb with hb | hb
    · subst hb
      have := h n b (List.mem_cons_self _ _)
      simp only [if_true, this]
      omega
    · have := ih (fun w bytes hm => h w bytes (List.mem_cons_of_mem _ hm)) ⟨b, hb⟩
      omega

/-! ## The ordinal printed when a file is closed -/

theorem reports_checked_append (xs ys : List Event) :
    reports_checked (xs ++ ys) = ys.foldl report_step (reports_checked xs) := by
  simp [reports_checked, List.foldl_append]

theorem reports_close_previous (s : ScanState) (h : reporting s) :
    ∃ c, reports_checked (close_previous s).events = some c := by
  obtain ⟨h1, c, hc⟩ := h
  unfold close_previous
  cases ho : s.recovered_file with
  | none => exact ⟨c, hc⟩
  | some h0 =>
    have e := h1 h0 ho
    have e1 : (s.file_counter : Int) - 1 = (h0 : Int) := by omega
    refine ⟨none, ?_⟩
    simp only [reports_checked_append, hc, List.foldl_cons, List.foldl_nil, report_step, e1,
      if_true]

theorem reporting_initial (buf0 : List Nat) : reporting (initial buf0) :=
  ⟨fun h hh => (by cases hh), none, rfl⟩

theorem reporting_step (canCreate : Nat → Bool) (s : ScanState) (r : ReadResult)
    (h : reporting s) : reporting (loop_body canCreate s r).state := by
  have hcl := reports_close_previous s h
  obtain ⟨h1, c, hc⟩ := h
  cases hsee : sees_signature s r with
  | true =>
    rw [loop_body_sees canCreate s r hsee]
    obtain ⟨c1, hc1⟩ := hcl
    cases canCreate s.file_counter
    · simp only [Bool.false_eq_true, if_false, StepResult.state]
      exact ⟨fun h0 hh => (by cases hh), c1, hc1⟩
    · simp only [if_true, StepResult.state]
      refine ⟨fun h0 hh => ?_, none, ?_⟩
      · injection hh with hh
        rw [hh]
      · simp only [reports_checked_append, hc1, List.foldl_cons, List.foldl_nil, report_step]
  | false =>
    unfold sees_signature at hsee
    unfold loop_body
    simp only []
    split
    · exact ⟨h1, c, hc⟩
    split
    · exact ⟨h1, c, hc⟩
    split
    · rename_i a1 a2 a3
      simp [a1, a2, a3] at hsee
    · cases ho : s.recovered_file with
      | none => exact ⟨fun h0 hh => (by simp [StepResult.state, ho] at hh), c, hc⟩
      | some h0 =>
        simp only []
        split
        · refine ⟨fun w hw => h1 w (by rw [ho]; simpa [StepResult.state] using hw), none, ?_⟩
          simp only [StepResult.state, reports_checked_append, hc, List.foldl_cons,
            List.foldl_nil, report_step]
        split
        · refine ⟨fun w hw => (by simp [StepResult.state] at hw), some h0, ?_⟩
          simp only [StepResult.state, reports_checked_append, hc, List.foldl_cons,
            List.foldl_nil, report_step]
        · refine ⟨fun w hw => h1 w (by rw [ho]; simpa [StepResult.state] using hw), none, ?_⟩
          simp only [StepResult.state, reports_checked_append, hc, List.foldl_cons,
            List.foldl_nil, report_step]

theorem reporting_loop (canCreate : Nat → Bool) (reads : List ReadResult) (s : ScanState)
    (h : reporting s) : reporting (scan_loop canCreate s reads).state := by
  induction reads generalizing s with
  | nil => simpa [scan_loop, StepResult.state] using h
  | cons r rest ih =>
    have h1 := reporting_step canCreate s r h
    simp only [scan_loop]
    cases hb : loop_body canCreate s r with
    | next s2 => rw [hb] at h1; exact ih s2 h1
    | brk s2 => rw [hb] at h1; exact h1
    | ret c s2 => rw [hb] at h1; exact h1
    | oob s2 => rw [hb] at h1; exact h1

theorem getLast_range_succ (n : Nat) : (List.range (n + 1)).getLast? = some n := by
  rw [List.range_succ, List.getLast?_append]
  rfl

/-! ## The name buffer and the `int` counter -/

theorem name_overflows_iff (n : Nat) : name_overflows n = true ↔ 100000 ≤ n := by
  unfold name_overflows filename_size
  rw [decide_eq_true_iff, artifact_name_bytes]
  have h := toDigits_length_le_iff n 5 (by decide)
  have e : (10 : Nat) ^ 5 = 100000 := by decide
  rw [e] at h
  constructor
  · intro h1
    by_contra hc
    have := h.mpr (by omega)
    omega
  · intro h1
    by_contra hc
    have : (Nat.toDigits 10 n).length ≤ 5 := by omega
    have := h.mp this
    omega

theorem overflows_iff (n : Nat) :
    (name_overflows n || counter_overflows n) = true ↔ 100000 ≤ n := by
  rw [Bool.or_eq_true, name_overflows_iff]
  unfold counter_overflows
  rw [decide_eq_true_iff]
  omega

theorem loop_body_checked_eq (canCreate : Nat → Bool) (s : ScanState) (r : ReadResult)
    (h : sees_signature s r = true → s.file_counter < 100000) :
    loop_body_checked canCreate s r = loop_body canCreate s r := by
  unfold loop_body_checked
  cases hsee : sees_signature s r with
  | false => simp
  | true =>
    have h1 : (name_overflows s.file_counter || counter_overflows s.file_counter) = false := by
      rw [← Bool.not_eq_true, overflows_iff]
      have := h hsee
      omega
    simp [h1]

theorem loop_body_checked_oob (canCreate : Nat → Bool) (s : ScanState) (r : ReadResult)
    (hsee : sees_signature s r = true) (h : 100000 ≤ s.file_counter) :
    loop_body_checked canCreate s r =
      StepResult.oob
        (close_previous
          { s with buffer := r.data ++ s.buffer.drop r.data.length,
                   bytes_read_total := s.bytes_read_total + r.data.length }) := by
  unfold loop_body_checked
  rw [hsee, (overflows_iff s.file_counter).mpr h]
  rfl

theorem loop_body_next_counter (canCreate : Nat → Bool) (s s1 : ScanState) (r : ReadResult)
    (h : loop_body canCreate s r = StepResult.next s1) :
    s1.file_counter = s.file_counter + (if sees_signature s r then 1 else 0) := by
  cases hsee : sees_signature s r with
  | true =>
    have hb := loop_body_sees canCreate s r hsee
    rw [h] at hb
    cases hc : canCreate s.file_counter with
    | false => rw [hc] at hb; simp at hb
    | true =>
      rw [hc] at hb
      simp only [if_true, StepResult.next.injEq] at hb
      subst hb
      simp
  | false =>
    obtain ⟨-, b, -⟩ := loop_body_not_sees canCreate s r hsee
    rw [h] at b
    simpa [StepResult.state] using b

theorem scan_loop_checked_eq (canCreate : Nat → Bool) (reads : List ReadResult) (s : ScanState)
    (h : s.file_counter + signatures_seen canCreate s reads ≤ 100000) :
    scan_loop_checked canCreate s reads = scan_loop canCreate s reads := by
  induction reads generalizing s with
  | nil => rfl
  | cons r rest ih =>
    simp only [signatures_seen] at h
    have hstep : loop_body_checked canCreate s r = loop_body canCreate s r := by
      apply loop_body_checked_eq
      intro hsee
      rw [hsee] at h
      simp only [if_true] at h
      omega
    simp only [scan_loop_checked, scan_loop, hstep]
    cases hb : loop_body canCreate s r with
    | next s1 =>
      rw [hb] at h
      simp only [] at h ⊢
      apply ih
      rw [loop_body_next_counter canCreate s s1 r hb]
      omega
    | brk s1 => rfl
    | ret c s1 => rfl
    | oob s1 => rfl

theorem scan_checked_eq (canCreate : Nat → Bool) (buf0 : List Nat) (reads : List ReadResult)
    (h : signatures_seen canCreate (initial buf0) reads ≤ 100000) :
    scan_checked canCreate buf0 reads = scan canCreate buf0 reads := by
  unfold scan_checked scan
  rw [scan_loop_checked_eq canCreate reads (initial buf0) (by
    have h0 : (initial buf0).file_counter = 0 := rfl
    rw [h0]; omega)]

theorem scan_loop_checked_append (canCreate : Nat → Bool) (xs ys : List ReadResult)
    (s : ScanState) :
    scan_loop_checked canCreate s (xs ++ ys) =
      match scan_loop_checked canCreate s xs with
      | StepResult.next s1 => scan_loop_checked canCreate s1 ys
      | other => other := by
  induction xs generalizing s with
  | nil => simp [scan_loop_checked]
  | cons r rest ih =>
    simp only [List.cons_append, scan_loop_checked]
    cases h : loop_body_checked canCreate s r <;> simp [ih]

theorem scan_checked_overflow (canCreate : Nat → Bool) (buf0 : List Nat)
    (pre : List ReadResult) (r : ReadResult) (rest : List ReadResult) (s : ScanState)
    (hpre : scan_loop canCreate (initial buf0) pre = StepResult.next s)
    (hfc : s.file_counter = 100000) (hsee : sees_signature s r = true) :
    scan_checked canCreate buf0 (pre ++ r :: rest) =
      Outcome.undefined
        (close_previous
          { s with buffer := r.data ++ s.buffer.drop r.data.length,
                   bytes_read_total := s.bytes_read_total + r.data.length }) := by
  have hcount := (created_loop_next canCreate pre (initial buf0) s hpre rfl).2
  have h0 : (initial buf0).file_counter = 0 := rfl
  have hpre1 : scan_loop_checked canCreate (initial buf0) pre = StepResult.next s := by
    rw [scan_loop_checked_eq canCreate pre (initial buf0) (by omega)]
    exact hpre
  unfold scan_checked
  rw [scan_loop_checked_append, hpre1]
  simp only [scan_loop_checked]
  rw [loop_body_checked_oob canCreate s r hsee (by omega)]

theorem sees_full (s : ScanState) (b : List Nat) (hlen : b.length = 512) :
    sees_signature s (full b) = is_jpeg_header b := by
  unfold sees_signature
  have h : (full b).data = b := rfl
  rw [h, header_append _ _ (by omega)]
  simp [hlen]

theorem signatures_seen_blocks (bs : List (List Nat)) (s : ScanState)
    (hlen : ∀ b ∈ bs, b.length = 512) :
    signatures_seen (fun _ => true) s (bs.map full) = bs.countP is_jpeg_header := by
  induction bs generalizing s with
  | nil => rfl
  | cons b rest ih =>
    have hb : b.length = 512 := hlen b (List.mem_cons_self _ _)
    simp only [List.map_cons, signatures_seen, sees_full s b hb, loop_body_block s b hb,
      List.countP_cons]
    rw [ih _ (fun x hx => hlen x (List.mem_cons_of_mem _ hx))]
    omega

theorem countP_replicate_header (n : Nat) :
    (List.replicate n sample_header_block).countP is_jpeg_header = n := by
  induction n with
  | zero => rfl
  | succ n ih =>
    have h : is_jpeg_header sample_header_block = true := by decide
    rw [List.replicate_succ, List.countP_cons, ih, h]
    simp

/-! ## The stream without faults -/

theorem fread_clean (m : List Nat) (pos : Nat) :
    fread (clean_disk m) pos =
      { data := (m.drop pos).take 512,
        eof := decide (((m.drop pos).take 512).length < 512), err := false } := rfl

theorem disk_reads_clean_from (m : List Nat) (fuel pos : Nat)
    (hf : (m.length - pos) / 512 < fuel) :
    disk_reads (clean_disk m) fuel pos =
      fread_from ((m.length - pos) / 512) (m.drop pos) := by
  induction fuel generalizing pos with
  | zero => omega
  | succ fuel ih =>
    have hlen : ((m.drop pos).take 512).length = min 512 (m.length - pos) := by
      rw [List.length_take, List.length_drop]
    unfold disk_reads
    rw [fread_clean]
    simp only []
    by_cases hfull : 512 ≤ m.length - pos
    · have h1 : ((m.drop pos).take 512).length = 512 := by rw [hlen]; omega
      obtain ⟨k, hk⟩ : ∃ k, (m.length - pos) / 512 = k + 1 :=
        ⟨(m.length - pos) / 512 - 1, by
          have := Nat.div_le_div_right (c := 512) hfull
          omega⟩
      have hk1 : (m.length - (pos + 512)) / 512 = k := by omega
      rw [hk, fread_from]
      simp only [h1, bne_self_eq_false, Bool.false_and, Bool.false_eq_true, if_false,
        Nat.lt_irrefl, decide_False]
      rw [ih (pos + 512) (by omega), hk1, List.drop_drop]
    · have h1 : ((m.drop pos).take 512).length < 512 := by rw [hlen]; omega
      have h2 : ((m.drop pos).take 512).length ≠ 512 := by omega
      have h0 : (m.length - pos) / 512 = 0 := by omega
      have h3 : m.length - pos < 512 := by omega
      rw [h0]
      simp [h3, fread_from]

theorem disk_reads_clean (m : List Nat) :
    disk_reads (clean_disk m) ((clean_disk m).bytes.length / 512 + 2) 0 = fread_all m := by
  have h : (clean_disk m).bytes = m := rfl
  rw [h, disk_reads_clean_from m _ 0 (by omega)]
  rfl

/-! ## The expected files, read off the bytes -/

theorem begins_eq_header (b : List Nat) (h : 3 ≤ b.length) :
    begins_with_signature b = is_jpeg_header b := by
  match b, h with
  | x :: y :: z :: t, _ =>
    simp only [begins_with_signature, is_jpeg_header, jpeg_header, List.take_succ_cons,
      List.take_zero, List.getD_cons_zero, List.getD_cons_succ]
    by_cases h1 : x = 255 <;> by_cases h2 : y = 216 <;> by_cases h3 : z = 255 <;>
      simp [h1, h2, h3, Bool.and_assoc]

theorem ends_eq_footer (b : List Nat) (h : 2 ≤ b.length) :
    ends_with_end_signature b = ends_with_footer b := by
  unfold ends_with_end_signature ends_with_footer
  have hl : (b.drop (b.length - 2)).length = 2 := by rw [List.length_drop]; omega
  match hd : b.drop (b.length - 2), hl with
  | [x, y], _ =>
    simp only [is_jpeg_footer, jpeg_footer, List.getD_cons_zero, List.getD_cons_succ]
    by_cases h1 : x = 255 <;> by_cases h2 : y = 217 <;> simp [h1, h2]

theorem getD_mem (bs : List (List Nat)) (j : Nat) (h : j < bs.length) : bs.getD j [] ∈ bs := by
  rw [List.getD_eq_getElem _ _ h]
  exact List.getElem_mem h

theorem find_congr (l : List Nat) (p q : Nat → Bool) (h : ∀ x ∈ l, p x = q x) :
    l.find? p = l.find? q := by
  induction l with
  | nil => rfl
  | cons a t ih =>
    rw [List.find?_cons, List.find?_cons, h a (List.mem_cons_self _ _),
      ih (fun x hx => h x (List.mem_cons_of_mem _ hx))]

theorem claimed_artifacts_eq (bs : List (List Nat)) (hlen : ∀ b ∈ bs, b.length = 512) :
    claimed_artifacts bs = expected_artifacts bs := by
  have hb : ∀ j, j < bs.length →
      begins_with_signature (bs.getD j []) = is_jpeg_header (bs.getD j []) := by
    intro j hj
    exact begins_eq_header _ (by rw [hlen _ (getD_mem bs j hj)]; decide)
  have he : ∀ j, j < bs.length →
      ends_with_end_signature (bs.getD j []) = ends_with_footer (bs.getD j []) := by
    intro j hj
    exact ends_eq_footer _ (by rw [hlen _ (getD_mem bs j hj)]; decide)
  have hidx : claimed_header_indices bs = header_indices bs := by
    unfold claimed_header_indices header_indices
    apply List.filter_congr
    intro i hi
    exact hb i (List.mem_range.mp hi)
  have hend : ∀ i, claimed_end bs i = segment_end bs i := by
    intro i
    unfold claimed_end segment_end
    have hf : (List.range bs.length).find? (fun j =>
        decide (i < j) &&
          (begins_with_signature (bs.getD j []) ||
            (!begins_with_signature (bs.getD j []) &&
              ends_with_end_signature (bs.getD j [])))) =
        (List.range bs.length).find? (fun j => decide (i < j) && stops (bs.getD j [])) := by
      apply find_congr
      intro j hj
      rw [hb j (List.mem_range.mp hj), he j (List.mem_range.mp hj)]
      rfl
    rw [hf]
    cases hfind : (List.range bs.length).find?
        (fun j => decide (i < j) && stops (bs.getD j [])) with
    | none => rfl
    | some j =>
      have hj : j < bs.length := List.mem_range.mp (List.mem_of_find?_eq_some hfind)
      simp only [hb j hj]
  unfold claimed_artifacts expected_artifacts
  rw [hidx]
  apply List.map_congr_left
  intro p _
  rw [hend]

/-! ## The stream with faults -/

theorem fread_fault (d : Disk) (pos j : Nat) (hf : d.fault pos = some j)
    (hp : pos < d.bytes.length) :
    fread d pos =
      { data := ((d.bytes.drop pos).take 512).take (min j 511), eof := false, err := true } := by
  unfold fread
  rw [hf]
  simp only [hp, if_true]

theorem fread_fault_length (d : Disk) (pos j : Nat) (hf : d.fault pos = some j)
    (hp : pos < d.bytes.length) : (fread d pos).data.length ≤ min j 511 := by
  rw [fread_fault d pos j hf hp]
  simp only [List.length_take]
  omega

theorem disk_reads_fault (d : Disk) (fuel pos j : Nat) (hf : d.fault pos = some j)
    (hp : pos < d.bytes.length) :
    disk_reads d (fuel + 1) pos =
      fread d pos :: disk_reads d fuel (pos + (fread d pos).data.length + 512) := by
  have hl := fread_fault_length d pos j hf hp
  have h1 : (fread d pos).eof = false := by rw [fread_fault d pos j hf hp]
  have h2 : (fread d pos).err = true := by rw [fread_fault d pos j hf hp]
  have h3 : ((fread d pos).data.length != 512) = true := by
    rw [bne_iff_ne]
    omega
  rw [disk_reads]
  simp only [h1, h2, h3, Bool.and_false, Bool.and_true, Bool.false_eq_true, if_false, if_true]

theorem disk_reads_full (d : Disk) (fuel pos : Nat) (hf : d.fault pos = none)
    (hp : pos + 512 ≤ d.bytes.length) :
    disk_reads d (fuel + 1) pos =
      full ((d.bytes.drop pos).take 512) :: disk_reads d fuel (pos + 512) := by
  have hlen : ((d.bytes.drop pos).take 512).length = 512 := by
    rw [List.length_take, List.length_drop]
    omega
  have hr : fread d pos = full ((d.bytes.drop pos).take 512) := by
    unfold fread full
    rw [hf]
    simp only [hlen, Nat.lt_irrefl, decide_False]
  rw [disk_reads, hr]
  have h1 : (full ((d.bytes.drop pos).take 512)).data = (d.bytes.drop pos).take 512 := rfl
  simp only [h1, hlen, bne_self_eq_false, Bool.false_and, Bool.false_eq_true, if_false]

theorem fread_shift (pre rest : List Nat) (flt : Nat → Option Nat) (q : Nat) :
    fread { bytes := pre ++ rest, fault := flt } (pre.length + q) =
      fread { bytes := rest, fault := fun p => flt (pre.length + p) } q := by
  unfold fread
  have h1 : (pre ++ rest).drop (pre.length + q) = rest.drop q := by
    rw [← List.drop_drop, List.drop_left]
  simp only [h1, List.length_append, Nat.add_lt_add_iff_left]

theorem disk_reads_shift (pre rest : List Nat) (flt : Nat → Option Nat) (fuel q : Nat) :
    disk_reads { bytes := pre ++ rest, fault := flt } fuel (pre.length + q) =
      disk_reads { bytes := rest, fault := fun p => flt (pre.length + p) } fuel q := by
  induction fuel generalizing q with
  | zero => rfl
  | succ fuel ih =>
    rw [disk_reads, disk_reads, fread_shift]
    simp only [Nat.add_assoc, ih]

theorem disk_reads_block (b rest : List Nat) (flt : Nat → Option Nat) (fuel : Nat)
    (hb : b.length = 512) (h0 : flt 0 = none) :
    disk_reads { bytes := b ++ rest, fault := flt } (fuel + 1) 0 =
      full b :: disk_reads { bytes := rest, fault := fun p => flt (512 + p) } fuel 0 := by
  rw [disk_reads_full _ _ _ h0 (by simp only [List.length_append]; omega)]
  have h1 : ((b ++ rest).drop 0).take 512 = b := by
    rw [List.drop_zero, ← hb, List.take_left]
  have h2 := disk_reads_shift b rest flt fuel 0
  rw [hb] at h2
  simp only [h1]
  rw [Nat.zero_add, ← h2]

theorem disk_reads_ends (d : Disk) (fuel pos : Nat)
    (hfuel : (d.bytes.length - pos + 511) / 512 < fuel) :
    ∃ pre r, disk_reads d fuel pos = pre ++ [r] ∧ (r.data.length != 512 && r.eof) = true := by
  induction fuel generalizing pos with
  | zero => omega
  | succ fuel ih =>
    rw [disk_reads]
    by_cases h1 : ((fread d pos).data.length != 512 && (fread d pos).eof) = true
    · exact ⟨[], fread d pos, by simp [h1], h1⟩
    · cases hf : d.fault pos with
      | some j =>
        by_cases hp : pos < d.bytes.length
        · have hl := fread_fault_length d pos j hf hp
          have h2 : (fread d pos).err = true := by rw [fread_fault d pos j hf hp]
          have h3 : ((fread d pos).data.length != 512) = true := by
            rw [bne_iff_ne]
            omega
          have h4 : (fread d pos).eof = false := by rw [fread_fault d pos j hf hp]
          obtain ⟨pre, r, e1, e2⟩ := ih (pos + (fread d pos).data.length + 512) (by omega)
          refine ⟨fread d pos :: pre, r, ?_, e2⟩
          simp only [h2, h3, h4, Bool.and_true, Bool.and_false, Bool.false_eq_true, if_false,
            if_true, e1, List.cons_append]
        · exfalso
          apply h1
          unfold fread
          rw [hf]
          simp [hp]
      | none =>
        have hr : fread d pos = ReadResult.mk ((d.bytes.drop pos).take 512)
            (decide (((d.bytes.drop pos).take 512).length < 512)) false := by
          unfold fread
          rw [hf]
        have hlen : ((d.bytes.drop pos).take 512).length = min 512 (d.bytes.length - pos) := by
          rw [List.length_take, List.length_drop]
        by_cases hp : pos + 512 ≤ d.bytes.length
        · obtain ⟨pre, r, e1, e2⟩ := ih (pos + 512) (by omega)
          refine ⟨fread d pos :: pre, r, ?_, e2⟩
          have h4 : (fread d pos).data.length = 512 := by rw [hr]; simp only [hlen]; omega
          simp only [h4, bne_self_eq_false, Bool.false_and, Bool.false_eq_true, if_false, e1,
            List.cons_append]
        · exfalso
          apply h1
          rw [hr]
          have h5 : ((d.bytes.drop pos).take 512).length < 512 := by rw [hlen]; omega
          simp only [Bool.and_eq_true, bne_iff_ne, ne_eq, decide_eq_true_eq]
          exact ⟨by omega, h5⟩

/-! ## Runs of the checked loop -/

theorem scan_loop_checked_next (canCreate : Nat → Bool) (reads : List ReadResult)
    (s s1 : ScanState) (h : scan_loop_checked canCreate s reads = StepResult.next s1) :
    scan_loop canCreate s reads = StepResult.next s1 := by
  induction reads generalizing s with
  | nil => exact h
  | cons r rest ih =>
    simp only [scan_loop_checked] at h
    have hstep : loop_body_checked canCreate s r = loop_body canCreate s r := by
      by_cases hc : (sees_signature s r &&
          (name_overflows s.file_counter || counter_overflows s.file_counter)) = true
      · unfold loop_body_checked at h
        rw [if_pos hc] at h
        cases h
      · unfold loop_body_checked
        rw [if_neg hc]
    rw [hstep] at h
    simp only [scan_loop]
    cases hb : loop_body canCreate s r with
    | next s2 => rw [hb] at h; exact ih s2 h
    | brk s2 => rw [hb] at h; cases h
    | ret c s2 => rw [hb] at h; cases h
    | oob s2 => rw [hb] at h; cases h

theorem loop_body_checked_eof (canCreate : Nat → Bool) (s : ScanState) (r : ReadResult)
    (h : (r.data.length != 512 && r.eof) = true) :
    ∃ s1, loop_body_checked canCreate s r = StepResult.brk s1 := by
  have hsee : sees_signature s r = false := by
    unfold sees_signature
    rw [h]
    rfl
  unfold loop_body_checked
  rw [hsee]
  simp only [Bool.false_and, Bool.false_eq_true, if_false]
  unfold loop_body
  simp only [h, if_true]
  exact ⟨_, rfl⟩

theorem scan_checked_not_running (canCreate : Nat → Bool) (buf0 : List Nat)
    (pre : List ReadResult) (r : ReadResult) (h : (r.data.length != 512 && r.eof) = true)
    (s : ScanState) : scan_checked canCreate buf0 (pre ++ [r]) ≠ Outcome.running s := by
  unfold scan_checked
  rw [scan_loop_checked_append]
  cases hp : scan_loop_checked canCreate (initial buf0) pre with
  | next s1 =>
    obtain ⟨s2, h2⟩ := loop_body_checked_eof canCreate s1 r h
    simp only [scan_loop_checked, h2]
    intro hc
    cases hc
  | brk s1 => intro hc; cases hc
  | ret c s1 => intro hc; cases hc
  | oob s1 => intro hc; cases hc

theorem scan_disk_not_running (canCreate : Nat → Bool) (buf0 : List Nat) (d : Disk)
    (s : ScanState) : scan_disk canCreate buf0 d ≠ Outcome.running s := by
  obtain ⟨pre, r, e1, e2⟩ := disk_reads_ends d (d.bytes.length / 512 + 2) 0 (by omega)
  unfold scan_disk
  rw [e1]
  exact scan_checked_not_running canCreate buf0 pre r e2 s

theorem signatures_seen_append (canCreate : Nat → Bool) (xs ys : List ReadResult)
    (s : ScanState) :
    signatures_seen canCreate s (xs ++ ys) =
      signatures_seen canCreate s xs +
        match scan_loop canCreate s xs with
        | StepResult.next s1 => signatures_seen canCreate s1 ys
        | _ => 0 := by
  induction xs generalizing s with
  | nil => simp [signatures_seen, scan_loop]
  | cons r rest ih =>
    simp only [List.cons_append, signatures_seen, scan_loop]
    cases hb : loop_body canCreate s r with
    | next s1 => simp only [List.append_eq, ih, Nat.add_assoc]
    | brk s1 => rfl
    | ret c s1 => rfl
    | oob s1 => rfl

theorem signatures_seen_eof (canCreate : Nat → Bool) (s : ScanState) (r : ReadResult)
    (h : (r.data.length != 512 && r.eof) = true) :
    signatures_seen canCreate s [r] = 0 := by
  have hsee : sees_signature s r = false := by
    unfold sees_signature
    rw [h]
    rfl
  simp only [signatures_seen, hsee]
  cases loop_body canCreate s r <;> rfl

theorem signatures_seen_fread_all (bs : List (List Nat)) (buf0 : List Nat)
    (hlen : ∀ b ∈ bs, b.length = 512) :
    signatures_seen (fun _ => true) (initial buf0) (fread_all bs.flatten) =
      bs.countP is_jpeg_header := by
  rw [fread_all_blocks bs hlen, signatures_seen_append, signatures_seen_blocks bs _ hlen]
  cases scan_loop (fun _ => true) (initial buf0) (bs.map full) with
  | next s1 =>
    simp only []
    rw [signatures_seen_eof _ _ _ (by rfl), Nat.add_zero]
  | brk s1 => rfl
  | ret c s1 => rfl
  | oob s1 => rfl

theorem filter_range_length (p : List Nat → Bool) (bs : List (List Nat)) :
    ((List.range bs.length).filter fun i => p (bs.getD i [])).length = bs.countP p := by
  induction bs with
  | nil => rfl
  | cons b t ih =>
    rw [List.length_cons, List.range_succ_eq_map, List.filter_cons, List.filter_map]
    have e : ((fun i => p ((b :: t).getD i [])) ∘ Nat.succ) = fun i => p (t.getD i []) := by
      funext i
      simp [Function.comp]
    rw [e, List.countP_cons]
    by_cases hh : p b = true
    · simp only [List.getD_cons_zero, hh, if_true, List.length_cons, List.length_map, ih]
    · simp only [List.getD_cons_zero, hh, if_false, List.length_map, ih, Bool.false_eq_true,
        Nat.add_zero]

theorem countP_begins (bs : List (List Nat)) (hlen : ∀ b ∈ bs, b.length = 512) :
    bs.countP is_jpeg_header = (claimed_header_indices bs).length := by
  unfold claimed_header_indices
  rw [filter_range_length]
  apply List.countP_congr
  intro b hb
  rw [begins_eq_header b (by rw [hlen b hb]; decide)]

theorem claimed_artifacts_length (bs : List (List Nat)) :
    (claimed_artifacts bs).length = bs.countP begins_with_signature := by
  unfold claimed_artifacts claimed_header_indices
  rw [List.length_map, List.enum_length, filter_range_length]

theorem countP_replicate_begins (n : Nat) :
    (List.replicate n sample_header_block).countP begins_with_signature = n := by
  induction n with
  | zero => rfl
  | succ n ih =>
    have h : begins_with_signature sample_header_block = true := by decide
    rw [List.replicate_succ, List.countP_cons, ih, h]
    simp

theorem scan_disk_clean (canCreate : Nat → Bool) (buf0 m : List Nat) :
    scan_disk canCreate buf0 (clean_disk m) = scan_checked canCreate buf0 (fread_all m) := by
  unfold scan_disk
  rw [disk_reads_clean]

/-! ## The sample stream with a fault at block 5 -/

theorem sample_faulty_bytes (j : Nat) :
    (sample_faulty_disk j).bytes =
      (List.replicate 6 sample_other_block ++
        [sample_header_block, sample_padding_block]).flatten := by
  simp [sample_faulty_disk, List.replicate]

theorem sample_faulty_blocks :
    ∀ b ∈ List.replicate 6 sample_other_block ++ [sample_header_block, sample_padding_block],
      b.length = 512 := by
  intro b hb
  rw [List.mem_append] at hb
  rcases hb with hb | hb
  · rw [List.eq_of_mem_replicate hb]
    exact sample_other_block_length
  · simp only [List.mem_cons, List.mem_singleton, List.not_mem_nil, or_false] at hb
    rcases hb with rfl | rfl
    · exact sample_header_block_length
    · exact sample_padding_block_length

theorem sample_faulty_length (j : Nat) : (sample_faulty_disk j).bytes.length = 4096 := by
  rw [sample_faulty_bytes, flatten_length _ sample_faulty_blocks]
  rfl

theorem sample_faulty_sectors (j : Nat) :
    sectors (sample_faulty_disk j).bytes =
      List.replicate 6 sample_other_block ++ [sample_header_block, sample_padding_block] := by
  rw [sample_faulty_bytes]
  have h := sectors_flatten _ [] sample_faulty_blocks (by simp)
  rw [List.append_nil] at h
  exact h

theorem sample_faulty_reads (j : Nat) :
    disk_reads (sample_faulty_disk j) ((sample_faulty_disk j).bytes.length / 512 + 2) 0 =
      List.replicate 5 (full sample_other_block) ++ disk_reads (sample_tail_disk j) 5 0 := by
  rw [sample_faulty_length]
  have e : sample_faulty_disk j =
      { bytes := sample_other_block ++ (sample_other_block ++ (sample_other_block ++
          (sample_other_block ++ (sample_other_block ++ (sample_other_block ++
            (sample_header_block ++ sample_padding_block)))))),
        fault := fun p => if p = 2560 then some j else none } := by
    simp [sample_faulty_disk, List.replicate]
  have hf : (fun p => (fun p => (fun p => (fun p => (fun p =>
      (fun p => if p = 2560 then some j else none) (512 + p)) (512 + p)) (512 + p))
        (512 + p)) (512 + p)) = fun p => if p = 0 then some j else none := by
    funext p
    have : (512 + (512 + (512 + (512 + (512 + p)))) = 2560) = (p = 0) := by
      apply propext
      omega
    simp only [this]
  have h10 : 4096 / 512 + 2 = 9 + 1 := by decide
  have h5 : List.replicate 5 (full sample_other_block) =
      [full sample_other_block, full sample_other_block, full sample_other_block,
        full sample_other_block, full sample_other_block] := rfl
  rw [e, h10, h5]
  rw [disk_reads_block _ _ _ _ sample_other_block_length (by simp)]
  rw [disk_reads_block _ _ _ _ sample_other_block_length (by simp)]
  rw [disk_reads_block _ _ _ _ sample_other_block_length (by simp)]
  rw [disk_reads_block _ _ _ _ sample_other_block_length (by simp)]
  rw [disk_reads_block _ _ _ _ sample_other_block_length (by simp)]
  rw [hf]
  unfold sample_tail_disk
  simp only [List.cons_append, List.nil_append]

set_option maxRecDepth 100000 in
theorem sample_tail_reads_missed :
    disk_reads (sample_tail_disk 100) 5 0 =
      [{ data := sample_other_block.take 100, eof := false, err := true },
        full sample_padding_block,
        { data := List.replicate 412 0, eof := true, err := false }] := by decide

set_option maxRecDepth 100000 in
theorem sample_tail_reads_skipped :
    disk_reads (sample_tail_disk 0) 5 0 =
      [sample_fault_read, full sample_header_block, full sample_padding_block,
        sample_eof_read] := by decide

set_option maxRecDepth 100000 in
theorem sample_idle_run :
    scan_loop_checked (fun _ => true) (initial []) (List.replicate 5 (full sample_other_block)) =
      StepResult.next sample_idle_state := by decide

set_option maxRecDepth 100000 in
theorem sample_missed_tail :
    scan_loop_checked (fun _ => true) sample_idle_state
      [{ data := sample_other_block.take 100, eof := false, err := true },
        full sample_padding_block,
        { data := List.replicate 412 0, eof := true, err := false }] =
      StepResult.brk sample_missed_state := by decide

set_option maxRecDepth 100000 in
theorem sample_skipped_tail :
    scan_loop_checked (fun _ => true) sample_idle_state
      [sample_fault_read, full sample_header_block, full sample_padding_block,
        sample_eof_read] =
      StepResult.brk
        { sample_skipped_state with
          events := [Event.fopen 0, Event.fwrite 0 sample_header_block,
            Event.fwrite 0 sample_padding_block] } := by decide

theorem sample_missed_scan :
    scan_disk (fun _ => true) [] (sample_faulty_disk 100) =
      Outcome.exited 0 sample_missed_state := by
  unfold scan_disk scan_checked
  rw [sample_faulty_reads, sample_tail_reads_missed, scan_loop_checked_append, sample_idle_run]
  simp only []
  rw [sample_missed_tail]
  rfl

theorem sample_skipped_scan :
    scan_disk (fun _ => true) [] (sample_faulty_disk 0) =
      Outcome.exited 0 sample_skipped_state := by
  unfold scan_disk scan_checked
  rw [sample_faulty_reads, sample_tail_reads_skipped, scan_loop_checked_append, sample_idle_run]
  simp only []
  rw [sample_skipped_tail]
  rfl

theorem sample_skipped_artifacts :
    artifacts sample_skipped_state.events =
      [(0, sample_header_block ++ sample_padding_block)] := by
  simp [artifacts, created, content, sample_skipped_state]

/-! ## The 100001st start signature -/

theorem replicate_header_length (n : Nat) :
    ∀ b ∈ List.replicate n sample_header_block, b.length = 512 := by
  intro b hb
  rw [List.eq_of_mem_replicate hb]
  exact sample_header_block_length

theorem overflow_run (n : Nat) (hn : n = 100000) (buf0 : List Nat) (rest : List ReadResult) :
    ∃ s, scan_checked (fun _ => true) buf0
        ((List.replicate (n + 1) sample_header_block).map full ++ rest) =
          Outcome.undefined s ∧
      created s.events = List.range n := by
  have hlen := replicate_header_length n
  have hpre := scan_loop_blocks (List.replicate n sample_header_block) (initial buf0) hlen
  obtain ⟨hc, hfc⟩ := created_loop_next (fun _ => true) _ (initial buf0) _ hpre rfl
  rw [signatures_seen_blocks _ _ hlen, countP_replicate_header] at hfc
  have h0 : (initial buf0).file_counter = 0 := rfl
  rw [h0, Nat.zero_add] at hfc
  have hsee : sees_signature ((List.replicate n sample_header_block).foldl block_step
      (initial buf0)) (full sample_header_block) = true := by
    rw [sees_full _ _ sample_header_block_length]
    decide
  have e : (List.replicate (n + 1) sample_header_block).map full ++ rest =
      (List.replicate n sample_header_block).map full ++ full sample_header_block :: rest := by
    rw [List.replicate_succ', List.map_append, List.append_assoc]
    rfl
  rw [e, scan_checked_overflow (fun _ => true) buf0 _ _ rest _ hpre (by rw [hfc, hn]) hsee]
  refine ⟨_, rfl, ?_⟩
  rw [created_close_previous]
  simp only []
  rw [hc, hfc]

theorem overflow_disk (n : Nat) (hn : n = 100000) (buf0 : List Nat) :
    ∃ s, scan_disk (fun _ => true) buf0
        (clean_disk (List.replicate (n + 1) sample_header_block).flatten) =
          Outcome.undefined s ∧
      created s.events = List.range n := by
  rw [scan_disk_clean, fread_all_blocks _ (replicate_header_length (n + 1))]
  exact overflow_run n hn buf0 _

theorem created_checked_overflow (buf0 : List Nat) (pre : List ReadResult) (r : ReadResult)
    (rest : List ReadResult) (s : ScanState)
    (hpre : scan_loop_checked (fun _ => true) (initial buf0) pre = StepResult.next s)
    (hsee : sees_signature s r = true)
    (hn : signatures_seen (fun _ => true) (initial buf0) pre = 100000) :
    ∃ s1, scan_checked (fun _ => true) buf0 (pre ++ r :: rest) = Outcome.undefined s1 ∧
      created s1.events = List.range 100000 := by
  have hpre1 := scan_loop_checked_next _ _ _ _ hpre
  obtain ⟨hc, hfc⟩ := created_loop_next (fun _ => true) pre (initial buf0) s hpre1 rfl
  have h0 : (initial buf0).file_counter = 0 := rfl
  rw [h0, Nat.zero_add, hn] at hfc
  rw [scan_checked_overflow (fun _ => true) buf0 pre r rest s hpre1 hfc hsee]
  refine ⟨_, rfl, ?_⟩
  rw [created_close_previous]
  simp only []
  rw [hc, hfc]

theorem created_scan_checked (buf0 : List Nat) (reads : List ReadResult)
    (h : signatures_seen (fun _ => true) (initial buf0) reads ≤ 100000) :
    created (scan_checked (fun _ => true) buf0 reads).state.events =
      List.range (signatures_seen (fun _ => true) (initial buf0) reads) := by
  rw [scan_checked_eq _ _ _ h]
  have h1 := (created_loop reads (initial buf0) rfl).1
  have h0 : (initial buf0).file_counter = 0 := rfl
  rw [h0, Nat.zero_add] at h1
  unfold scan
  cases hl : scan_loop (fun _ => true) (initial buf0) reads with
  | next s => rw [hl] at h1; exact h1
  | brk s => rw [hl] at h1; simpa [Outcome.state, created_close_previous] using h1
  | ret c s => rw [hl] at h1; exact h1
  | oob s => rw [hl] at h1; exact h1

theorem created_checked_step (buf0 : List Nat) (pre : List ReadResult) (r : ReadResult)
    (s : ScanState)
    (hpre : scan_loop_checked (fun _ => true) (initial buf0) pre = StepResult.next s)
    (hsee : sees_signature s r = true)
    (hn : signatures_seen (fun _ => true) (initial buf0) pre < 100000) :
    created (scan_loop_checked (fun _ => true) (initial buf0) (pre ++ [r])).state.events =
      created s.events ++ [signatures_seen (fun _ => true) (initial buf0) pre] := by
  have hpre1 := scan_loop_checked_next _ _ _ _ hpre
  obtain ⟨-, hfc⟩ := created_loop_next (fun _ => true) pre (initial buf0) s hpre1 rfl
  have h0 : (initial buf0).file_counter = 0 := rfl
  rw [h0, Nat.zero_add] at hfc
  obtain ⟨h1, -⟩ := step_created s r
  rw [hsee, if_pos rfl, hfc] at h1
  rw [scan_loop_checked_append, hpre]
  simp only [scan_loop_checked]
  rw [loop_body_checked_eq _ s r (fun _ => by omega)]
  cases hb : loop_body (fun _ => true) s r with
  | next s1 => rw [hb] at h1; exact h1
  | brk s1 => rw [hb] at h1; exact h1
  | ret c s1 => rw [hb] at h1; exact h1
  | oob s1 => rw [hb] at h1; exact h1

theorem sees_begins (s : ScanState) (r : ReadResult) (hlen : r.data.length = 512) :
    sees_signature s r = begins_with_signature r.data := by
  rw [begins_eq_header _ (by omega)]
  unfold sees_signature
  rw [header_append _ _ (by omega)]
  simp [hlen]

/-! ## The sample medium with two files -/

theorem sample_two_files_length : ∀ b ∈ sample_two_files, b.length = 512 := by
  intro b hb
  simp only [sample_two_files, List.mem_cons, List.mem_singleton, List.not_mem_nil,
    or_false] at hb
  rcases hb with rfl | rfl | rfl | rfl | rfl
  · exact sample_header_block_length
  · exact sample_padding_block_length
  · exact sample_header_block_length
  · exact sample_footer_block_length
  · exact sample_padding_block_length

set_option maxRecDepth 100000 in
theorem sample_two_files_indices : claimed_header_indices sample_two_files = [0, 2] := by
  decide

set_option maxRecDepth 100000 in
theorem sample_two_files_ends :
    claimed_end sample_two_files 0 = 1 ∧ claimed_end sample_two_files 2 = 3 := by
  decide

theorem sample_two_files_claimed :
    claimed_artifacts sample_two_files =
      [(0, sample_header_block ++ sample_padding_block),
        (1, sample_header_block ++ sample_footer_block)] := by
  unfold claimed_artifacts
  rw [sample_two_files_indices]
  simp only [List.enum_cons, List.enum_nil, List.enumFrom_cons, List.enumFrom_nil, List.map_cons,
    List.map_nil, sample_two_files_ends.1, sample_two_files_ends.2]
  simp [blocks_from_to, sample_two_files]

theorem scan_disk_claimed (bs : List (List Nat)) (buf0 : List Nat)
    (hlen : ∀ b ∈ bs, b.length = 512)
    (hn : (claimed_header_indices bs).length ≤ 100000) :
    ∃ s, scan_disk (fun _ => true) buf0 (clean_disk bs.flatten) = Outcome.exited 0 s ∧
      artifacts s.events = claimed_artifacts bs ∧
      ∀ n bytes, Event.fwrite n bytes ∈ s.events → n ∈ created s.events := by
  have hseen := signatures_seen_fread_all bs buf0 hlen
  rw [countP_begins bs hlen] at hseen
  rw [scan_disk_clean, scan_checked_eq _ _ _ (by rw [hseen]; exact hn)]
  obtain ⟨s, h1, h2⟩ := artifacts_fread_all buf0 bs.flatten
  have h3 := sectors_flatten bs [] hlen (by simp)
  rw [List.append_nil] at h3
  refine ⟨s, h1, ?_, ?_⟩
  · rw [h2, h3, claimed_artifacts_eq bs hlen, expected_artifacts_eq]
  · have := writes_created (fun _ => true) buf0 (fread_all bs.flatten)
    rw [h1] at this
    exact this

theorem sample_faulty_block6 (j : Nat) :
    ((sample_faulty_disk j).bytes.drop (2560 + 512)).take 512 = sample_header_block := by
  have e : (sample_faulty_disk j).bytes =
      (List.replicate 6 sample_other_block).flatten ++
        (sample_header_block ++ sample_padding_block) := by
    simp [sample_faulty_disk]
  have l : ((List.replicate 6 sample_other_block).flatten).length = 2560 + 512 := by
    rw [flatten_length _ (fun b hb => by
      rw [List.eq_of_mem_replicate hb]
      exact sample_other_block_length)]
    rfl
  rw [e, List.drop_left' l, List.take_left' sample_header_block_length]

/-! # Claims -/

/-- C1: on a medium made of full 512-byte blocks, read from the stream without
faults up to its end, with every creation succeeding and with at most 100000
blocks that begin with FF D8 FF, the scan returns 0 and leaves exactly the
files read off the bytes of the blocks: one per block index `i` whose first
three bytes are FF D8 FF, numbered in increasing order of `i`, holding blocks
`i` to `claimed_end bs i`; and every write of the scan goes to one of these
files, so no block outside these ranges is written anywhere. Beyond 100000
such blocks this fails: on the medium of 100001 blocks that all begin with
FF D8 FF, for which 100001 files are expected, the name for ordinal 100000
does not fit `filename[20]` and the scan is undefined at the 100001st block,
with the files 0 to 99999 created. -/
theorem C1_scan_carves_claimed_artifacts :
    (∀ (bs : List (List Nat)) (buf0 : List Nat),
      (∀ b ∈ bs, b.length = 512) →
      (claimed_header_indices bs).length ≤ 100000 →
      ∃ s, scan_disk (fun _ => true) buf0 (clean_disk bs.flatten) = Outcome.exited 0 s ∧
        artifacts s.events = claimed_artifacts bs ∧
        ∀ n bytes, Event.fwrite n bytes ∈ s.events → n ∈ created s.events) ∧
    ((∀ b ∈ List.replicate 100001 sample_header_block, b.length = 512) ∧
      (claimed_artifacts (List.replicate 100001 sample_header_block)).length = 100001 ∧
      name_overflows 100000 = true ∧
      ∃ s, scan_disk (fun _ => true) []
          (clean_disk (List.replicate 100001 sample_header_block).flatten) =
            Outcome.undefined s ∧
        created s.events = List.range 100000) := by
  refine ⟨fun bs buf0 hlen hn => scan_disk_claimed bs buf0 hlen hn,
    replicate_header_length 100001, ?_, (name_overflows_iff 100000).mpr (Nat.le_refl _),
    overflow_disk 100000 rfl []⟩
  rw [claimed_artifacts_length, countP_replicate_begins]

/-- C1 at the blocks header, padding, header, footer, padding: file 0 holds
blocks 0 and 1, file 1 holds blocks 2 and 3, block 4 is written nowhere. -/
theorem C1_witness :
    (∀ b ∈ sample_two_files, b.length = 512) ∧
    (claimed_header_indices sample_two_files).length ≤ 100000 ∧
    ∃ s, scan_disk (fun _ => true) [] (clean_disk sample_two_files.flatten) =
        Outcome.exited 0 s ∧
      artifacts s.events =
        [(0, sample_header_block ++ sample_padding_block),
          (1, sample_header_block ++ sample_footer_block)] ∧
      ∀ n bytes, Event.fwrite n bytes ∈ s.events → n ∈ created s.events := by
  have hn : (claimed_header_indices sample_two_files).length ≤ 100000 := by
    rw [sample_two_files_indices]
    decide
  have h := C1_scan_carves_claimed_artifacts.1 sample_two_files [] sample_two_files_length hn
  rw [sample_two_files_claimed] at h
  exact ⟨sample_two_files_length, hn, h⟩

/-- C2: when exactly one block `i` begins with FF D8 FF and block `j` is the
first later block whose last two bytes are FF D9, the scan returns 0 and
leaves exactly one file, with ordinal 0, holding blocks `i` to `j`, of
`(j - i + 1) * 512` bytes; every write goes to that file. -/
theorem C2_single_image_is_carved (bs : List (List Nat)) (buf0 : List Nat) (i j : Nat)
    (hlen : ∀ b ∈ bs, b.length = 512)
    (hij : i < j) (hj : j < bs.length)
    (hhdr : is_jpeg_header (bs.getD i []) = true)
    (honly : ∀ k, k < bs.length → k ≠ i → is_jpeg_header (bs.getD k []) = false)
    (hftr : ends_with_footer (bs.getD j []) = true)
    (hfirst : ∀ k, k < j → i < k → ends_with_footer (bs.getD k []) = false) :
    ∃ s, scan (fun _ => true) buf0 (fread_all bs.flatten) = Outcome.exited 0 s ∧
      artifacts s.events = [(0, blocks_from_to bs i j)] ∧
      (blocks_from_to bs i j).length = (j - i + 1) * 512 ∧
      ∀ n bytes, Event.fwrite n bytes ∈ s.events → n = 0 := by
  obtain ⟨s, h1, h0⟩ := artifacts_fread_all buf0 bs.flatten
  have hsec := sectors_flatten bs [] hlen (by simp)
  rw [List.append_nil] at hsec
  have h2 : artifacts s.events = expected_artifacts bs := by
    rw [h0, hsec, expected_artifacts_eq]
  have h3 : ∀ n bytes, Event.fwrite n bytes ∈ s.events → n ∈ created s.events := by
    have := writes_created (fun _ => true) buf0 (fread_all bs.flatten)
    rw [h1] at this
    exact this
  have hidx : header_indices bs = [i] := header_indices_single bs i (by omega) hhdr honly
  have hjh : is_jpeg_header (bs.getD j []) = false := honly j hj (by omega)
  have hfind : (List.range bs.length).find?
      (fun k => decide (i < k) && stops (bs.getD k [])) = some j := by
    apply find_range_first _ _ _ hj
    · simp only [stops, hjh, hftr, hij, decide_True, Bool.not_false, Bool.and_self,
        Bool.or_true]
    · intro k hk
      by_cases hik : i < k
      · have e1 := honly k (by omega) (by omega)
        have e2 := hfirst k hk hik
        simp only [stops, e1, e2, Bool.or_self, Bool.and_false]
      · simp only [hik, decide_False, Bool.false_and]
  have hend : segment_end bs i = j := by
    unfold segment_end
    rw [hfind]
    simp only [hjh, Bool.false_eq_true, if_false]
  have hexp : expected_artifacts bs = [(0, blocks_from_to bs i j)] := by
    unfold expected_artifacts
    rw [hidx]
    simp only [List.enum, List.enumFrom, List.map_cons, List.map_nil, hend]
  have hcr : created s.events = [0] := by
    rw [← artifacts_fst, h2, hexp]
    rfl
  refine ⟨s, h1, by rw [h2, hexp], blocks_from_to_length bs i j hlen (by omega) hj, ?_⟩
  intro n bytes hm
  have := h3 n bytes hm
  rw [hcr] at this
  simpa using this

set_option maxRecDepth 100000 in
/-- C2 at the four-block medium: other data, header block, padding, block
ending in FF D9; the file holds blocks 1 to 3 and has 3 * 512 = 1536 bytes. -/
theorem C2_witness :
    (blocks_from_to sample_blocks 1 3 =
        sample_header_block ++ sample_padding_block ++ sample_footer_block ∧
      (3 - 1 + 1) * 512 = 1536) ∧
    ∃ s, scan (fun _ => true) [] (fread_all sample_blocks.flatten) = Outcome.exited 0 s ∧
      artifacts s.events = [(0, blocks_from_to sample_blocks 1 3)] ∧
      (blocks_from_to sample_blocks 1 3).length = (3 - 1 + 1) * 512 ∧
      ∀ n bytes, Event.fwrite n bytes ∈ s.events → n = 0 :=
  ⟨⟨by simp [blocks_from_to, sample_blocks], by decide⟩,
    C2_single_image_is_carved sample_blocks [] 1 3 (by decide) (by decide) (by decide)
      (by decide) (by decide) (by decide) (by decide)⟩

/-- C4: in every scan in which every creation succeeds, on any sequence of
read results in which at most 100000 start signatures are observed
(iterations that reach the header test with a matching buffer), the ordinals
of the files created are 0, 1, ..., N - 1 in this order, with N the number of
signatures observed; the iteration that observes a further start signature
after the reads `pre`, when fewer than 100000 were observed during `pre`,
creates exactly one file, with ordinal the number observed during `pre`; for a
read of a whole block, observing a signature means that the first three bytes
of the block are FF D8 FF. How earlier files were closed plays no part. The
100001st start signature gets no ordinal: whenever 100000 signatures were
observed during `pre` and the next iteration observes one more, `sprintf`
writes the name for ordinal 100000 past the end of `filename[20]` and the scan
is undefined, with the ordinals 0 to 99999 created; the reads of 100001 header
blocks are such a scan. -/
theorem C4_ordinals_follow_signatures :
    (∀ (buf0 : List Nat) (reads : List ReadResult),
      signatures_seen (fun _ => true) (initial buf0) reads ≤ 100000 →
      created (scan_checked (fun _ => true) buf0 reads).state.events =
        List.range (signatures_seen (fun _ => true) (initial buf0) reads)) ∧
    (∀ (buf0 : List Nat) (pre : List ReadResult) (r : ReadResult) (s : ScanState),
      scan_loop_checked (fun _ => true) (initial buf0) pre = StepResult.next s →
      sees_signature s r = true →
      signatures_seen (fun _ => true) (initial buf0) pre < 100000 →
      created (scan_loop_checked (fun _ => true) (initial buf0) (pre ++ [r])).state.events =
        created s.events ++ [signatures_seen (fun _ => true) (initial buf0) pre]) ∧
    (∀ (s : ScanState) (r : ReadResult), r.data.length = 512 →
      sees_signature s r = begins_with_signature r.data) ∧
    (∀ (buf0 : List Nat) (pre : List ReadResult) (r : ReadResult) (rest : List ReadResult)
        (s : ScanState),
      scan_loop_checked (fun _ => true) (initial buf0) pre = StepResult.next s →
      sees_signature s r = true →
      signatures_seen (fun _ => true) (initial buf0) pre = 100000 →
      ∃ s1, scan_checked (fun _ => true) buf0 (pre ++ r :: rest) = Outcome.undefined s1 ∧
        created s1.events = List.range 100000) ∧
    (signatures_seen (fun _ => true) (initial [])
        ((List.replicate 100001 sample_header_block).map full) = 100001 ∧
      ∃ s1, scan_checked (fun _ => true) []
          ((List.replicate 100001 sample_header_block).map full) = Outcome.undefined s1 ∧
        created s1.events = List.range 100000) := by
  refine ⟨created_scan_checked, created_checked_step, sees_begins, created_checked_overflow,
    ?_, ?_⟩
  · rw [signatures_seen_blocks _ _ (replicate_header_length 100001), countP_replicate_header]
  · have h := overflow_run 100000 rfl [] []
    rw [List.append_nil] at h
    exact h

set_option maxRecDepth 100000 in
/-- C4 at the second header block of a scan: after one header block was
read, a further header block creates the file with ordinal 1, so that the files
created are 0 and 1. -/
theorem C4_witness :
    scan_loop_checked (fun _ => true) (initial []) [full sample_header_block] =
        StepResult.next sample_open_state ∧
      sees_signature sample_open_state (full sample_header_block) = true ∧
      signatures_seen (fun _ => true) (initial []) [full sample_header_block] < 100000 ∧
      created (scan_loop_checked (fun _ => true) (initial [])
          ([full sample_header_block] ++ [full sample_header_block])).state.events = [0, 1] := by
  have h1 : scan_loop_checked (fun _ => true) (initial []) [full sample_header_block] =
      StepResult.next sample_open_state := by decide
  have h2 : sees_signature sample_open_state (full sample_header_block) = true := by
    decide
  have h3 : signatures_seen (fun _ => true) (initial []) [full sample_header_block] = 1 := by
    decide
  have h := C4_ordinals_follow_signatures.2.1 [] [full sample_header_block]
    (full sample_header_block) sample_open_state h1 h2 (by rw [h3]; decide)
  rw [h3] at h
  exact ⟨h1, h2, by rw [h3]; decide, h⟩

/-- C5: a read that reports an I/O error (short, error indicator set, no
end-of-file) never ends the loop and leaves the open file, the trace (so every
file content) and the ordinal counter as they were. On the stream, a read at
offset `pos` that fails after delivering `k` bytes is followed by the read at
offset `pos + k + 512`, and the calls made on any stream, whatever its faults,
reach the end of the medium. When the failing read delivered nothing and the
512 bytes that follow the faulty block are read without fault and begin with
FF D8 FF, the next read delivers exactly these bytes and a new file is created
holding them. When the failing read delivered bytes this fails: on the
eight-block medium whose read at block 5 fails after 100 bytes and whose block
6 begins with FF D8 FF the scan returns 0 without creating any file, where the
same medium with a failing read that delivers nothing gives file 0 holding
blocks 6 and 7. -/
theorem C5_read_fault_skips_512_bytes :
    (∀ (canCreate : Nat → Bool) (s : ScanState) (f : ReadResult),
      f.err = true → f.eof = false → f.data.length ≠ 512 →
      ∃ s1, loop_body_checked canCreate s f = StepResult.next s1 ∧
        s1.recovered_file = s.recovered_file ∧ s1.events = s.events ∧
        s1.file_counter = s.file_counter) ∧
    (∀ (d : Disk) (fuel pos j : Nat),
      d.fault pos = some j → pos < d.bytes.length →
      (fread d pos).err = true ∧ (fread d pos).eof = false ∧
        (fread d pos).data = (d.bytes.drop pos).take (min j 511) ∧
        (fread d pos).data.length ≠ 512 ∧
        disk_reads d (fuel + 1) pos =
          fread d pos :: disk_reads d fuel (pos + (fread d pos).data.length + 512)) ∧
    (∀ (canCreate : Nat → Bool) (buf0 : List Nat) (d : Disk) (s : ScanState),
      scan_disk canCreate buf0 d ≠ Outcome.running s) ∧
    (∀ (canCreate : Nat → Bool) (d : Disk) (fuel pos : Nat) (s : ScanState),
      d.fault pos = some 0 → d.fault (pos + 512) = none →
      pos + 1024 ≤ d.bytes.length →
      begins_with_signature ((d.bytes.drop (pos + 512)).take 512) = true →
      canCreate s.file_counter = true → s.file_counter < 100000 →
      disk_reads d (fuel + 2) pos =
          fread d pos :: full ((d.bytes.drop (pos + 512)).take 512) ::
            disk_reads d fuel (pos + 1024) ∧
        ∃ s2, scan_loop_checked canCreate s
            [fread d pos, full ((d.bytes.drop (pos + 512)).take 512)] = StepResult.next s2 ∧
          s2.recovered_file = some s.file_counter ∧
          s2.events = (close_previous s).events ++
            [Event.fopen s.file_counter,
              Event.fwrite s.file_counter ((d.bytes.drop (pos + 512)).take 512)]) ∧
    ((∀ j, sectors (sample_faulty_disk j).bytes =
          List.replicate 6 sample_other_block ++ [sample_header_block, sample_padding_block]) ∧
      begins_with_signature sample_header_block = true ∧
      (sample_faulty_disk 100).fault (5 * 512) = some 100 ∧
      (∃ s, scan_disk (fun _ => true) [] (sample_faulty_disk 100) = Outcome.exited 0 s ∧
        artifacts s.events = []) ∧
      (sample_faulty_disk 0).fault (5 * 512) = some 0 ∧
      ∃ s, scan_disk (fun _ => true) [] (sample_faulty_disk 0) = Outcome.exited 0 s ∧
        artifacts s.events = [(0, sample_header_block ++ sample_padding_block)]) := by
  have hA : ∀ (canCreate : Nat → Bool) (s : ScanState) (f : ReadResult),
      f.err = true → f.eof = false → f.data.length ≠ 512 →
      loop_body_checked canCreate s f = StepResult.next
        { s with buffer := f.data ++ s.buffer.drop f.data.length,
                 bytes_read_total := s.bytes_read_total + f.data.length } := by
    intro canCreate s f he hn hl
    have hsee : sees_signature s f = false := by
      simp [sees_signature, he, hl]
    rw [loop_body_checked_eq canCreate s f (by rw [hsee]; intro h; cases h)]
    simp [loop_body, he, hn, hl]
  refine ⟨?_, ?_, scan_disk_not_running, ?_, sample_faulty_sectors, by decide, rfl,
    ⟨_, sample_missed_scan, rfl⟩, rfl, ⟨_, sample_skipped_scan, sample_skipped_artifacts⟩⟩
  · intro canCreate s f he hn hl
    exact ⟨_, hA canCreate s f he hn hl, rfl, rfl, rfl⟩
  · intro d fuel pos j hf hp
    have hr := fread_fault d pos j hf hp
    have hl := fread_fault_length d pos j hf hp
    have hm : min (min j 511) 512 = min j 511 := by omega
    refine ⟨by rw [hr], by rw [hr], ?_, by omega, disk_reads_fault d fuel pos j hf hp⟩
    rw [hr]
    simp only []
    rw [List.take_take, hm]
  · intro canCreate d fuel pos s hf0 hf1 hlen hsig hc hfc
    have hp : pos < d.bytes.length := by omega
    have hB : ((d.bytes.drop (pos + 512)).take 512).length = 512 := by
      rw [List.length_take, List.length_drop]
      omega
    have hr := fread_fault d pos 0 hf0 hp
    have hdata : (fread d pos).data = [] := by
      rw [hr]
      simp
    have he : (fread d pos).err = true := by rw [hr]
    have hn : (fread d pos).eof = false := by rw [hr]
    constructor
    · have h1024 : pos + 512 + 512 = pos + 1024 := by omega
      rw [disk_reads_fault d (fuel + 1) pos 0 hf0 hp, hdata, List.length_nil, Nat.add_zero,
        disk_reads_full d fuel (pos + 512) hf1 (by omega), h1024]
    · simp only [scan_loop_checked]
      rw [hA canCreate s (fread d pos) he hn (by rw [hdata]; decide)]
      simp only []
      have hsee : sees_signature
          { s with buffer := (fread d pos).data ++ s.buffer.drop (fread d pos).data.length,
                   bytes_read_total := s.bytes_read_total + (fread d pos).data.length }
          (full ((d.bytes.drop (pos + 512)).take 512)) = true := by
        rw [sees_begins _ _ hB]
        exact hsig
      rw [loop_body_checked_eq canCreate
          { s with buffer := (fread d pos).data ++ s.buffer.drop (fread d pos).data.length,
                   bytes_read_total := s.bytes_read_total + (fread d pos).data.length }
          _ (fun _ => hfc),
        loop_body_sees canCreate _ _ hsee]
      simp only [hc, if_true]
      refine ⟨_, rfl, rfl, ?_⟩
      have hfull : (full ((d.bytes.drop (pos + 512)).take 512)).data =
          (d.bytes.drop (pos + 512)).take 512 := rfl
      simp only [hfull]
      rw [← hB, List.take_left]
      rw [hB]
      simp only [close_previous]
      cases s.recovered_file <;> rfl

/-- C5 at the eight-block medium whose blocks 0 to 5 hold other data, whose
block 6 begins with FF D8 FF and whose read at block 5 fails delivering
nothing: the stream gives the reads of blocks 0 to 4, the failing read, the
reads of blocks 6 and 7 and the read that hits the end; after the first five
the failing read is followed by the read of block 6, for which file 0 is
created. -/
theorem C5_witness :
    disk_reads (sample_faulty_disk 0) ((sample_faulty_disk 0).bytes.length / 512 + 2) 0 =
        List.replicate 5 (full sample_other_block) ++
          [sample_fault_read, full sample_header_block, full sample_padding_block,
            sample_eof_read] ∧
      scan_loop_checked (fun _ => true) (initial [])
          (List.replicate 5 (full sample_other_block)) = StepResult.next sample_idle_state ∧
      (sample_faulty_disk 0).fault 2560 = some 0 ∧
      (sample_faulty_disk 0).fault (2560 + 512) = none ∧
      2560 + 1024 ≤ (sample_faulty_disk 0).bytes.length ∧
      ((sample_faulty_disk 0).bytes.drop (2560 + 512)).take 512 = sample_header_block ∧
      fread (sample_faulty_disk 0) 2560 = sample_fault_read ∧
      disk_reads (sample_faulty_disk 0) (3 + 2) 2560 =
        sample_fault_read :: full sample_header_block ::
          disk_reads (sample_faulty_disk 0) 3 (2560 + 1024) ∧
      ∃ s2, scan_loop_checked (fun _ => true) sample_idle_state
          [sample_fault_read, full sample_header_block] = StepResult.next s2 ∧
        s2.recovered_file = some 0 ∧
        s2.events = [Event.fopen 0, Event.fwrite 0 sample_header_block] := by
  have hlen : 2560 + 1024 ≤ (sample_faulty_disk 0).bytes.length := by
    rw [sample_faulty_length]
    decide
  have hb := sample_faulty_block6 0
  have hr : fread (sample_faulty_disk 0) 2560 = sample_fault_read := by
    rw [fread_fault _ 2560 0 rfl (by rw [sample_faulty_length]; decide)]
    simp [sample_fault_read]
  have h := C5_read_fault_skips_512_bytes.2.2.2.1 (fun _ => true) (sample_faulty_disk 0) 3 2560
    sample_idle_state rfl (by simp [sample_faulty_disk]) hlen
    (by rw [hb]; decide) rfl (by decide)
  rw [hb, hr] at h
  exact ⟨by rw [sample_faulty_reads, sample_tail_reads_skipped], sample_idle_run, rfl,
    by simp [sample_faulty_disk], hlen, hb, hr, h.1, h.2⟩

/-- C6: when the read that reports end-of-medium arrives while file `h` is
open, the scan returns 0; its trace is the trace so far followed by the one
`fclose` of `h` (and the printed line), `h` was not closed before, every file
content is what it was, and no file is open afterwards. And on a medium of
full blocks with a single header block `i` and no later block ending in
FF D9, exactly one file is left, holding blocks `i` to the last. -/
theorem C6_open_artifact_closed_at_end :
    (∀ (canCreate : Nat → Bool) (buf0 : List Nat) (pre : List ReadResult) (r : ReadResult)
        (s : ScanState) (h : Nat),
      scan_loop canCreate (initial buf0) pre = StepResult.next s →
      s.recovered_file = some h → r.data.length ≠ 512 → r.eof = true →
      ∃ s1, scan canCreate buf0 (pre ++ [r]) = Outcome.exited 0 s1 ∧
        s1.events = s.events ++
          [Event.fclose h, Event.printRecovered ((s.file_counter : Int) - 1)] ∧
        s1.events.count (Event.fclose h) = 1 ∧
        (∀ n, content s1.events n = content s.events n) ∧
        ∃ k, open_after s1.events = some k ∧ k.current = none) ∧
    (∀ (bs : List (List Nat)) (buf0 : List Nat) (i : Nat),
      (∀ b ∈ bs, b.length = 512) → i < bs.length →
      is_jpeg_header (bs.getD i []) = true →
      (∀ k, k < bs.length → k ≠ i → is_jpeg_header (bs.getD k []) = false) →
      (∀ k, k < bs.length → i < k → ends_with_footer (bs.getD k []) = false) →
      ∃ s, scan (fun _ => true) buf0 (fread_all bs.flatten) = Outcome.exited 0 s ∧
        artifacts s.events = [(0, blocks_from_to bs i (bs.length - 1))]) := by
  constructor
  · intro canCreate buf0 pre r s h hpre hopen hlen heof
    have hord : orderly s := by
      have := orderly_loop canCreate pre (initial buf0) (orderly_initial buf0)
      rw [hpre] at this
      exact this
    have hnot := open_file_not_closed s h hord hopen
    have hscan : scan canCreate buf0 (pre ++ [r]) = Outcome.exited 0
        { s with buffer := r.data ++ s.buffer.drop r.data.length,
                 bytes_read_total := s.bytes_read_total + r.data.length,
                 events := s.events ++
                   [Event.fclose h, Event.printRecovered ((s.file_counter : Int) - 1)] } := by
      unfold scan
      rw [scan_loop_append, hpre]
      simp only [scan_loop]
      rw [loop_body_eof canCreate s r hlen heof]
      simp only [close_previous, hopen]
    refine ⟨_, hscan, rfl, ?_, ?_, ?_⟩
    · simp only [List.count_append, List.count_eq_zero_of_not_mem hnot]
      simp [List.count_cons]
    · intro n
      simp
    · have h2 := open_after_close_previous s hord
      simp only [close_previous, hopen] at h2
      exact ⟨_, h2, rfl⟩
  · intro bs buf0 i hlen hi hhdr honly hnf
    obtain ⟨s, h1, h0⟩ := artifacts_fread_all buf0 bs.flatten
    have hsec := sectors_flatten bs [] hlen (by simp)
    rw [List.append_nil] at hsec
    have hidx : header_indices bs = [i] := header_indices_single bs i hi hhdr honly
    have hfind : (List.range bs.length).find?
        (fun k => decide (i < k) && stops (bs.getD k [])) = none := by
      apply find_range_none
      intro k hk
      by_cases hik : i < k
      · have e1 := honly k hk (by omega)
        have e2 := hnf k hk hik
        simp only [stops, e1, e2, Bool.or_self, Bool.and_false]
      · simp only [hik, decide_False, Bool.false_and]
    have hend : segment_end bs i = bs.length - 1 := by
      unfold segment_end
      rw [hfind]
    refine ⟨s, h1, ?_⟩
    rw [h0, hsec, ← expected_artifacts_eq]
    unfold expected_artifacts
    rw [hidx]
    simp only [List.enum, List.enumFrom, List.map_cons, List.map_nil, hend]

set_option maxRecDepth 100000 in
/-- C6 at the medium made of one header block (end-of-medium arrives with
file 0 open), and at the three-block medium other data, header, padding. -/
theorem C6_witness :
    (scan_loop (fun _ => true) (initial []) [full sample_header_block] =
        StepResult.next sample_open_state ∧
      sample_open_state.recovered_file = some 0 ∧
      sample_eof_read.data.length ≠ 512 ∧ sample_eof_read.eof = true ∧
      ∃ s1, scan (fun _ => true) [] ([full sample_header_block] ++ [sample_eof_read]) =
          Outcome.exited 0 s1 ∧
        s1.events = sample_open_state.events ++
          [Event.fclose 0, Event.printRecovered ((sample_open_state.file_counter : Int) - 1)] ∧
        s1.events.count (Event.fclose 0) = 1 ∧
        (∀ n, content s1.events n = content sample_open_state.events n) ∧
        ∃ k, open_after s1.events = some k ∧ k.current = none) ∧
    ((∀ b ∈ sample_open_blocks, b.length = 512) ∧ 1 < sample_open_blocks.length ∧
      ∃ s, scan (fun _ => true) [] (fread_all sample_open_blocks.flatten) =
          Outcome.exited 0 s ∧
        artifacts s.events =
          [(0, blocks_from_to sample_open_blocks 1 (sample_open_blocks.length - 1))]) :=
  have h1 : scan_loop (fun _ => true) (initial []) [full sample_header_block] =
      StepResult.next sample_open_state := by decide
  have h2 : ∀ b ∈ sample_open_blocks, b.length = 512 := by decide
  ⟨⟨h1, rfl, by decide, rfl,
      C6_open_artifact_closed_at_end.1 (fun _ => true) [] [full sample_header_block]
        sample_eof_read sample_open_state 0 h1 rfl (by decide) rfl⟩,
    ⟨h2, by decide,
      C6_open_artifact_closed_at_end.2 sample_open_blocks [] 1 h2 (by decide) (by decide)
        (by decide) (by decide)⟩⟩

/-- C10: with file `h` open, an iteration on a whole block that does not begin
with FF D8 FF appends the block to `h` and closes `h` exactly when the last two
bytes of that same block are FF D9; the state before enters only through `h`.
So for two such blocks in a row, the first ending in FF and the second
beginning with D9, the file is still open after the first, and after the
second it is closed exactly when the second block itself ends in FF D9. -/
theorem C10_split_footer_not_detected :
    (∀ (canCreate : Nat → Bool) (s : ScanState) (r : ReadResult) (h : Nat),
      s.recovered_file = some h → r.data.length = 512 → is_jpeg_header r.data = false →
      ∃ s1, loop_body canCreate s r = StepResult.next s1 ∧
        s1.recovered_file = (if ends_with_footer r.data then none else some h) ∧
        s1.events = s.events ++ Event.fwrite h r.data ::
          (if ends_with_footer r.data then [Event.fclose h] else [])) ∧
    (∀ (canCreate : Nat → Bool) (s : ScanState) (r1 r2 : ReadResult) (h : Nat),
      s.recovered_file = some h → r1.data.length = 512 → r2.data.length = 512 →
      is_jpeg_header r1.data = false → r1.data.getD 511 0 = 0xFF →
      r2.data.getD 0 0 = 0xD9 →
      ∃ s1 s2, loop_body canCreate s r1 = StepResult.next s1 ∧
        s1.recovered_file = some h ∧
        loop_body canCreate s1 r2 = StepResult.next s2 ∧
        s2.recovered_file = (if ends_with_footer r2.data then none else some h)) := by
  have hA : ∀ (canCreate : Nat → Bool) (s : ScanState) (r : ReadResult) (h : Nat),
      s.recovered_file = some h → r.data.length = 512 → is_jpeg_header r.data = false →
      ∃ s1, loop_body canCreate s r = StepResult.next s1 ∧
        s1.recovered_file = (if ends_with_footer r.data then none else some h) ∧
        s1.events = s.events ++ Event.fwrite h r.data ::
          (if ends_with_footer r.data then [Event.fclose h] else []) := by
    intro canCreate s r h hopen hlen hnh
    rw [loop_body_full canCreate s r hlen]
    simp only [hnh, hopen, Bool.false_eq_true, if_false]
    cases hf : ends_with_footer r.data
    · simp only [Bool.false_eq_true, if_false]
      exact ⟨_, rfl, rfl, rfl⟩
    · simp only [if_true]
      exact ⟨_, rfl, rfl, rfl⟩
  refine ⟨hA, ?_⟩
  intro canCreate s r1 r2 h hopen hlen1 hlen2 hnh1 hlast hfirst
  obtain ⟨s1, a1, a2, -⟩ := hA canCreate s r1 h hopen hlen1 hnh1
  rw [footer_of_last_byte r1.data hlen1 hlast] at a2
  simp only [Bool.false_eq_true, if_false] at a2
  obtain ⟨s2, b1, b2, -⟩ := hA canCreate s1 r2 h a2 hlen2 (header_of_first_byte r2.data hfirst)
  exact ⟨s1, s2, a1, a2, b1, b2⟩

set_option maxRecDepth 100000 in
/-- C10 at a block ending in FF followed by a block beginning with D9, read
while file 0 is open: the file is open after both. -/
theorem C10_witness :
    sample_open_state.recovered_file = some 0 ∧
      (full sample_split_first).data.length = 512 ∧
      (full sample_split_second).data.length = 512 ∧
      is_jpeg_header (full sample_split_first).data = false ∧
      (full sample_split_first).data.getD 511 0 = 0xFF ∧
      (full sample_split_second).data.getD 0 0 = 0xD9 ∧
      ∃ s1 s2, loop_body (fun _ => true) sample_open_state (full sample_split_first) =
          StepResult.next s1 ∧
        s1.recovered_file = some 0 ∧
        loop_body (fun _ => true) s1 (full sample_split_second) = StepResult.next s2 ∧
        s2.recovered_file =
          (if ends_with_footer (full sample_split_second).data then none else some 0) :=
  ⟨rfl, by decide, by decide, by decide, by decide, by decide,
    C10_split_footer_not_detected.2 (fun _ => true) sample_open_state
      (full sample_split_first) (full sample_split_second) 0 rfl (by decide) (by decide)
      (by decide) (by decide) (by decide)⟩

/-- C12: for every ordinal `n` up to 999 the name is "recovered_", then the
three decimal digits of `n` (hundreds, tens, units, so zeros fill the left),
then ".jpg"; ordinal 7 gives "recovered_007.jpg"; the map from ordinal to name
is injective on all ordinals; and in every scan the names of the files
created are pairwise distinct. -/
theorem C12_artifact_names :
    (∀ n, n ≤ 999 →
      artifact_name n =
        "recovered_" ++
          String.mk [Nat.digitChar (n / 100), Nat.digitChar (n / 10 % 10),
            Nat.digitChar (n % 10)] ++ ".jpg") ∧
    artifact_name 7 = "recovered_007.jpg" ∧
    Function.Injective artifact_name ∧
    (∀ (canCreate : Nat → Bool) (buf0 : List Nat) (reads : List ReadResult),
      ((created (scan canCreate buf0 reads).state.events).map artifact_name).Nodup) := by
  refine ⟨?_, by decide, artifact_name_injective, ?_⟩
  · intro n hn
    unfold artifact_name
    rw [format_three_digits n hn]
  · intro canCreate buf0 reads
    exact (created_nodup canCreate buf0 reads).map artifact_name_injective

/-- C12 at ordinal 7. -/
theorem C12_witness :
    7 ≤ 999 ∧
      artifact_name 7 =
        "recovered_" ++
          String.mk [Nat.digitChar (7 / 100), Nat.digitChar (7 / 10 % 10),
            Nat.digitChar (7 % 10)] ++ ".jpg" :=
  ⟨by decide, C12_artifact_names.1 7 (by decide)⟩

/-- C13, as stated, fails on a read that reports an I/O error and delivers
nothing: the iteration goes on to the next read with `bytes_read_total` still
0, not 512. -/
theorem C13_counterexample :
    loop_body (fun _ => true) (initial []) sample_fault_read =
        StepResult.next (initial []) ∧
      (initial []).bytes_read_total = 0 ∧
      (loop_body (fun _ => true) (initial []) sample_fault_read).state.bytes_read_total ≠
        (initial []).bytes_read_total + 512 := by
  decide

/-- C13, amended: on a read that reports an I/O error (short, error indicator
set, no end-of-file) `bytes_read_total` grows by exactly the number of bytes
that read delivered, which is never 512; nothing is added for the skipped
sector. -/
theorem C13_fault_advances_by_bytes_read (canCreate : Nat → Bool) (s : ScanState)
    (f : ReadResult) (herr : f.err = true) (hne : f.eof = false)
    (hshort : f.data.length ≠ 512) :
    ∃ s1, loop_body canCreate s f = StepResult.next s1 ∧
      s1.bytes_read_total = s.bytes_read_total + f.data.length ∧
      s1.bytes_read_total ≠ s.bytes_read_total + 512 := by
  have h : loop_body canCreate s f = StepResult.next
      { s with buffer := f.data ++ s.buffer.drop f.data.length,
               bytes_read_total := s.bytes_read_total + f.data.length } := by
    simp [loop_body, herr, hne, hshort]
  refine ⟨_, h, rfl, ?_⟩
  simp only [ne_eq, add_right_inj]
  intro hc
  exact hshort (by exact_mod_cast hc)

/-- C13 amended at the failing read that delivers nothing, in the state after
five discarded blocks: `bytes_read_total` stays 2560. -/
theorem C13_witness :
    sample_fault_read.err = true ∧ sample_fault_read.eof = false ∧
      sample_fault_read.data.length ≠ 512 ∧
      ∃ s1, loop_body (fun _ => true) sample_idle_state sample_fault_read =
          StepResult.next s1 ∧
        s1.bytes_read_total =
          sample_idle_state.bytes_read_total + sample_fault_read.data.length ∧
        s1.bytes_read_total ≠ sample_idle_state.bytes_read_total + 512 :=
  ⟨rfl, rfl, by decide,
    C13_fault_advances_by_bytes_read (fun _ => true) sample_idle_state sample_fault_read
      rfl rfl (by decide)⟩

/-- C14: when the buffer has its 512 bytes and every read result keeps to the
contract of `fread` (at most 512 bytes, fewer only with end-of-file or error
set), the scan never makes the out-of-bounds read of `buffer + bytes_read - 2`,
and every read that reaches the header test, and so the footer test, delivered
`bytes_read = 512` into a buffer of 512 bytes: the footer test has offset
`510` and reads indices 510 and 511, the header test indices 0 to 2. -/
theorem C14_tests_stay_in_bounds (canCreate : Nat → Bool) (buf0 : List Nat)
    (reads : List ReadResult) (hbuf : buf0.length = 512)
    (hpre : ∀ r ∈ reads, proper_read r) :
    (∀ s, scan canCreate buf0 reads ≠ Outcome.undefined s) ∧
    (∀ (pre : List ReadResult) (r : ReadResult) (rest : List ReadResult) (s : ScanState),
      reads = pre ++ r :: rest →
      scan_loop canCreate (initial buf0) pre = StepResult.next s →
      reaches_tests r = true →
      r.data.length = 512 ∧ 2 ≤ r.data.length ∧ r.data.length - 2 = 510 ∧
        (r.data ++ s.buffer.drop r.data.length).length = 512 ∧
        ∀ s1, loop_body canCreate s r ≠ StepResult.oob s1) := by
  constructor
  · intro s hs
    unfold scan at hs
    cases hl : scan_loop canCreate (initial buf0) reads with
    | next s1 => rw [hl] at hs; cases hs
    | brk s1 => rw [hl] at hs; cases hs
    | ret c s1 => rw [hl] at hs; cases hs
    | oob s1 => exact scan_loop_no_oob canCreate reads (initial buf0) hpre s1 hl
  · intro pre r rest s hsplit hreach hr
    have hr_mem : r ∈ reads := by rw [hsplit]; simp
    have hp := hpre r hr_mem
    have hlen := proper_reaches r hp hr
    have hbuf1 : s.buffer.length = 512 := by
      have := scan_loop_buffer canCreate pre (initial buf0) hbuf
        (fun x hx => (hpre x (by rw [hsplit]; simp [hx])).1)
      rw [hreach] at this
      exact this
    refine ⟨hlen, by omega, by omega, ?_, loop_body_no_oob canCreate s r hp⟩
    rw [List.length_append, List.length_drop]
    omega

set_option maxRecDepth 100000 in
/-- C14 at a scan that reads a header block, then a failing read, then the
end of the medium. -/
theorem C14_witness :
    sample_padding_block.length = 512 ∧ (∀ r ∈ sample_reads, proper_read r) ∧
    (∀ s, scan (fun _ => true) sample_padding_block sample_reads ≠ Outcome.undefined s) ∧
    (∀ (pre : List ReadResult) (r : ReadResult) (rest : List ReadResult) (s : ScanState),
      sample_reads = pre ++ r :: rest →
      scan_loop (fun _ => true) (initial sample_padding_block) pre = StepResult.next s →
      reaches_tests r = true →
      r.data.length = 512 ∧ 2 ≤ r.data.length ∧ r.data.length - 2 = 510 ∧
        (r.data ++ s.buffer.drop r.data.length).length = 512 ∧
        ∀ s1, loop_body (fun _ => true) s r ≠ StepResult.oob s1) :=
  have h : ∀ r ∈ sample_reads, proper_read r := by
    intro r hr
    simp only [sample_reads, List.mem_cons, List.mem_singleton, List.not_mem_nil,
      or_false] at hr
    rcases hr with rfl | rfl | rfl
    · exact ⟨by decide, by decide⟩
    · exact ⟨by decide, by decide⟩
    · exact ⟨by decide, by decide⟩
  ⟨sample_padding_block_length, h,
    C14_tests_stay_in_bounds (fun _ => true) sample_padding_block sample_reads
      sample_padding_block_length h⟩

/-- C15: for every sequence of read results that keep to the contract of
`fread` (at most 512 bytes, fewer only with end-of-file or error set), so for
every medium and every pattern of faults, and whatever creations fail, every
file the scan leaves has a size that is a multiple of 512 and at least 512:
every write carries a whole block and every file created received its header
block. -/
theorem C15_artifact_sizes (canCreate : Nat → Bool) (buf0 : List Nat)
    (reads : List ReadResult) (hpre : ∀ r ∈ reads, proper_read r) :
    (∀ p ∈ artifacts (scan canCreate buf0 reads).state.events,
      0 < p.2.length ∧ p.2.length % 512 = 0) ∧
    (∀ h bytes, Event.fwrite h bytes ∈ (scan canCreate buf0 reads).state.events →
      bytes.length = 512) := by
  have hb := blockwise_scan canCreate buf0 reads hpre
  refine ⟨?_, hb.1⟩
  intro p hp
  unfold artifacts at hp
  rw [List.mem_map] at hp
  obtain ⟨n, hn, rfl⟩ := hp
  have h1 := content_length_mod (scan canCreate buf0 reads).state.events n hb.1
  have h2 := content_length_pos (scan canCreate buf0 reads).state.events n hb.1 (hb.2 n hn)
  exact ⟨Nat.lt_of_lt_of_le (by decide) h2, h1⟩

set_option maxRecDepth 100000 in
/-- C15 at a scan that reads a header block, then a failing read, then the
end of the medium. -/
theorem C15_witness :
    (∀ r ∈ sample_reads, proper_read r) ∧
    (∀ p ∈ artifacts (scan (fun _ => true) [] sample_reads).state.events,
      0 < p.2.length ∧ p.2.length % 512 = 0) ∧
    (∀ h bytes, Event.fwrite h bytes ∈ (scan (fun _ => true) [] sample_reads).state.events →
      bytes.length = 512) :=
  have h : ∀ r ∈ sample_reads, proper_read r := by
    intro r hr
    simp only [sample_reads, List.mem_cons, List.mem_singleton, List.not_mem_nil,
      or_false] at hr
    rcases hr with rfl | rfl | rfl
    · exact ⟨by decide, by decide⟩
    · exact ⟨by decide, by decide⟩
    · exact ⟨by decide, by decide⟩
  ⟨h, C15_artifact_sizes (fun _ => true) [] sample_reads h⟩

/-- C16: in every state in which the loop starts an iteration, a file `h` that
is open has `file_counter ≥ 1` and `h = file_counter - 1`, it is the file
created last, and it is the file the trace has open; and in the trace of every
scan each printed line `Recovered JPEG file: ...` comes right after the
`fclose` of the file whose ordinal it prints, both at supersession and at the
end of the scan. -/
theorem C16_open_artifact_is_latest :
    (∀ (canCreate : Nat → Bool) (buf0 : List Nat) (pre : List ReadResult) (s : ScanState)
        (h : Nat),
      scan_loop canCreate (initial buf0) pre = StepResult.next s →
      s.recovered_file = some h →
      1 ≤ s.file_counter ∧ h = s.file_counter - 1 ∧
        (created s.events).getLast? = some h ∧
        (∃ k, open_after s.events = some k ∧ k.current = some h) ∧
        (close_previous s).events = s.events ++
          [Event.fclose h, Event.printRecovered (h : Int)]) ∧
    (∀ (canCreate : Nat → Bool) (buf0 : List Nat) (reads : List ReadResult),
      ∃ c, reports_checked (scan canCreate buf0 reads).state.events = some c) := by
  constructor
  · intro canCreate buf0 pre s h hpre hopen
    have hrep : reporting s := by
      have := reporting_loop canCreate pre (initial buf0) (reporting_initial buf0)
      rw [hpre] at this
      exact this
    have hord : orderly s := by
      have := orderly_loop canCreate pre (initial buf0) (orderly_initial buf0)
      rw [hpre] at this
      exact this
    have hfc := hrep.1 h hopen
    have hcr := (created_loop_next canCreate pre (initial buf0) s hpre rfl).1
    obtain ⟨k, hk, hcur, -, -⟩ := hord
    refine ⟨by omega, by omega, ?_, ⟨k, hk, by rw [hcur, hopen]⟩, ?_⟩
    · rw [hcr, ← hfc]
      exact getLast_range_succ h
    · have e1 : (s.file_counter : Int) - 1 = (h : Int) := by omega
      simp only [close_previous, hopen, e1]
  · intro canCreate buf0 reads
    have h := reporting_loop canCreate reads (initial buf0) (reporting_initial buf0)
    unfold scan
    cases hl : scan_loop canCreate (initial buf0) reads with
    | next s => rw [hl] at h; exact h.2
    | brk s => rw [hl] at h; exact reports_close_previous s h
    | ret c s => rw [hl] at h; exact h.2
    | oob s => rw [hl] at h; exact h.2

set_option maxRecDepth 100000 in
/-- C16 at the state after one header block was read: file 0 is open and
`file_counter` is 1. -/
theorem C16_witness :
    scan_loop (fun _ => true) (initial []) [full sample_header_block] =
        StepResult.next sample_open_state ∧
      sample_open_state.recovered_file = some 0 ∧
      1 ≤ sample_open_state.file_counter ∧ 0 = sample_open_state.file_counter - 1 ∧
        (created sample_open_state.events).getLast? = some 0 ∧
        (∃ k, open_after sample_open_state.events = some k ∧ k.current = some 0) ∧
        (close_previous sample_open_state).events = sample_open_state.events ++
          [Event.fclose 0, Event.printRecovered ((0 : Nat) : Int)] :=
  have h1 : scan_loop (fun _ => true) (initial []) [full sample_header_block] =
      StepResult.next sample_open_state := by decide
  ⟨h1, rfl,
    C16_open_artifact_is_latest.1 (fun _ => true) [] [full sample_header_block]
      sample_open_state 0 h1 rfl⟩

/-- C17: the name written by `sprintf` for ordinal `n`, with its terminating
NUL, takes at most 20 bytes, the size of `filename`, exactly when
`0 ≤ n ≤ 99999`; for `n = 100000` it takes 21 bytes. -/
theorem C17_name_fits_buffer :
    (∀ n : Nat, (artifact_name n).utf8ByteSize + 1 ≤ 20 ↔ 0 ≤ n ∧ n ≤ 99999) ∧
    (artifact_name 100000).utf8ByteSize + 1 = 21 := by
  constructor
  · intro n
    rw [artifact_name_bytes]
    have h := toDigits_length_le_iff n 5 (by decide)
    have e : (10 : Nat) ^ 5 = 100000 := by decide
    rw [e] at h
    constructor
    · intro h1
      have : (Nat.toDigits 10 n).length ≤ 5 := by omega
      have := h.mp this
      omega
    · intro h1
      have := h.mpr (by omega)
      omega
  · rw [artifact_name_bytes]
    decide

end FileRecovery
